import Mathlib

/-!
Verification of the verified-placement pipeline
(`src/pipeline/verified_placement.py`) of the InteriorDesignApplication
repository, as a shallow embedding in Lean 4.

Modelling conventions:
* Python strings are Lean `String`s; the handful of string operations the
  code uses (`upper`, `strip`, `splitlines`, `split(":", 1)`, `in`,
  `" ".join`, `". ".join`) are re-implemented structurally over `s.data`
  (`List Char`) so that every proof reduces in the kernel.  `str.upper` is
  modelled per-character (`Char.toUpper`, ASCII), `str.strip` trims
  `Char.isWhitespace`, and `str.splitlines` splits on `'\n'`; the Unicode
  corner cases where Python differs play no role in any claim.
* The three external model calls (the compositor `insert_item_into_scene` /
  `remove_item_from_scene`, and the two Gemini text calls made by the
  reviewer and examiner agents) are oracles: per-attempt functions returning
  `Except String α`, `.error` modelling a raised Python exception.
* A run returns a `Trace` (the compositor invocations with their assembled
  prompts, the Gemini calls with their content lists, and the observer
  callback invocations) together with `Except String VerifiedPlacementResult`
  (`.error` = an exception propagating out of the function, including the
  `UnboundLocalError` on the exhaustion path when the loop body never ran).
* `max_attempts` is a `Nat`: Python's `range(1, m + 1)` is empty for every
  `m < 1`, so `0` represents all such values.
* The long static prose of the agent prompt templates is abbreviated in the
  prompt-building functions; no claim depends on that wording, only on the
  slots (description, instructions block, review) and on the exact literals
  `"ADDITIONAL INSTRUCTIONS: "`, `"IMPORTANT corrections from previous
  attempts: "`, `"VERDICT: PASS"`, `"FEEDBACK:"`.
-/

namespace VP

/-! ### String helpers (structural re-implementations of the Python ops) -/

/-- Python `str.upper`, per character (ASCII). -/
def upper (s : String) : String := ⟨s.data.map Char.toUpper⟩

/-- Drop whitespace from the front of a character list. -/
def dropWS (l : List Char) : List Char := l.dropWhile Char.isWhitespace

/-- Python `str.strip`: trim whitespace from both ends. -/
def strip (s : String) : String := ⟨(dropWS (dropWS s.data.reverse).reverse)⟩

/-- `sub` occurs as a contiguous substring of `l` (Python `sub in s`). -/
def containsSub (sub : List Char) : List Char → Bool
  | [] => sub.isEmpty
  | c :: t => sub.isPrefixOf (c :: t) || containsSub sub t

/-- Split a character list on `'\n'` (model of Python `str.splitlines`). -/
def splitLinesAux : List Char → List Char → List (List Char)
  | [], acc => [acc.reverse]
  | c :: t, acc =>
    if c = '\n' then acc.reverse :: splitLinesAux t []
    else splitLinesAux t (c :: acc)

/-- The lines of a string. -/
def splitLines (s : String) : List (List Char) := splitLinesAux s.data []

/-- Everything after the first `':'` (Python `line.split(":", 1)[1]`; in the
pipeline this is only reached on lines that do contain a colon). -/
def afterFirstColon : List Char → List Char
  | [] => []
  | c :: t => if c = ':' then t else afterFirstColon t

/-- Python `sep.join(parts)`. -/
def joinWith (sep : String) : List String → String
  | [] => ""
  | [x] => x
  | x :: y :: t => x ++ sep ++ joinWith sep (y :: t)

/-! ### Examiner response parsing
(`_examine` lines 163–171 and `_examine_removal` lines 360–367 of
`verified_placement.py`; the two copies are textually identical, so they are
embedded once). -/

/-- Scan the lines for the first one whose uppercased form starts with
`FEEDBACK:`; return everything after its first colon, stripped. -/
def findFeedback : List (List Char) → String
  | [] => ""
  | line :: rest =>
    if ("FEEDBACK:".data).isPrefixOf (line.map Char.toUpper) then
      strip ⟨afterFirstColon line⟩
    else findFeedback rest

/-- Parse a raw examiner response into `(passed, feedback)`:
`passed = ("VERDICT: PASS" in raw.upper())`, feedback from the first
`FEEDBACK:` line. -/
def parseExaminer (raw : String) : Bool × String :=
  (containsSub ("VERDICT: PASS".data) (upper raw).data,
   findFeedback (splitLines raw))

/-- View of `Except` as a sum, to derive decidable equality. -/
def exceptToSum {ε α : Type} : Except ε α → ε ⊕ α
  | .error e => .inl e
  | .ok a => .inr a

instance {ε α : Type} [DecidableEq ε] [DecidableEq α] :
    DecidableEq (Except ε α) := fun a b =>
  decidable_of_iff (exceptToSum a = exceptToSum b) (by
    cases a <;> cases b <;> simp [exceptToSum])

/-! ### Data model (`PlacementAttempt`, `VerifiedPlacementResult`) -/

/-- Record of a single generate-verify cycle (dataclass `PlacementAttempt`). -/
structure PlacementAttempt where
  attempt : Nat
  image_path : String
  review : String
  passed : Bool
  feedback : String
deriving DecidableEq

/-- Full result returned by the pipeline (dataclass `VerifiedPlacementResult`). -/
structure VerifiedPlacementResult where
  final_image_path : String
  passed : Bool
  attempts : List PlacementAttempt
deriving DecidableEq

/-- One element of a Gemini `contents` list: a prompt string or an image. -/
inductive Part where
  | text (s : String)
  | image (path : String)
deriving DecidableEq

/-- The image parts of a Gemini contents list, in order. -/
def imagesOf (ps : List Part) : List String :=
  ps.filterMap fun p => match p with | .text _ => none | .image q => some q

/-- One compositor invocation (`insert_item_into_scene` /
`remove_item_from_scene`): source images, assembled prompt, output path. -/
structure GenCall where
  room : String
  item : Option String
  prompt : String
  output : String
deriving DecidableEq

/-- Observable events of one run: compositor calls, Gemini text calls (with
their full contents lists), and observer-callback invocations, each in
chronological order. -/
structure Trace where
  genCalls : List GenCall
  geminiCalls : List (List Part)
  observerCalls : List PlacementAttempt
deriving DecidableEq

def Trace.empty : Trace := ⟨[], [], []⟩

def Trace.append (a b : Trace) : Trace :=
  ⟨a.genCalls ++ b.genCalls, a.geminiCalls ++ b.geminiCalls,
   a.observerCalls ++ b.observerCalls⟩

/-! ### Prompt building -/

/-- `_format_instructions_block` (lines 119–123). -/
def formatInstructionsBlock (addl : String) : String :=
  if strip addl ≠ "" then "ADDITIONAL INSTRUCTIONS: " ++ strip addl ++ "\n"
  else ""

/-- `REVIEWER_PROMPT.format(...)`; static prose abbreviated. -/
def reviewerPromptInsert (desc addl : String) : String :=
  "REVIEWER_PROMPT INTENDED PLACEMENT: " ++ desc ++ "\n"
    ++ formatInstructionsBlock addl ++ "REVIEWER_TASK"

/-- `EXAMINER_PROMPT.format(...)`; static prose abbreviated. -/
def examinerPromptInsert (desc review addl : String) : String :=
  "EXAMINER_PROMPT INTENDED PLACEMENT: " ++ desc ++ "\n"
    ++ formatInstructionsBlock addl ++ "OBSERVATIONS: " ++ review
    ++ "\nEXAMINER_TASK"

/-- `REMOVAL_REVIEWER_PROMPT.format(...)`; static prose abbreviated. -/
def reviewerPromptRemoval (desc addl : String) : String :=
  "REMOVAL_REVIEWER_PROMPT ITEM LOCATION: " ++ desc ++ "\n"
    ++ formatInstructionsBlock addl ++ "REMOVAL_REVIEWER_TASK"

/-- `REMOVAL_EXAMINER_PROMPT.format(...)`; static prose abbreviated. -/
def examinerPromptRemoval (desc review addl : String) : String :=
  "REMOVAL_EXAMINER_PROMPT ITEM LOCATION: " ++ desc ++ "\n"
    ++ formatInstructionsBlock addl ++ "OBSERVATIONS: " ++ review
    ++ "\nREMOVAL_EXAMINER_TASK"

/-- Contents of the `_review` Gemini call (line 141):
`[prompt, room_img, composite_img, item_img]`. -/
def reviewContents (room composite item desc addl : String) : List Part :=
  [.text (reviewerPromptInsert desc addl), .image room, .image composite,
   .image item]

/-- Contents of the `_examine` Gemini call (line 161). -/
def examineContents (room composite item desc review addl : String) :
    List Part :=
  [.text (examinerPromptInsert desc review addl), .image room,
   .image composite, .image item]

/-- Contents of the `_review_removal` Gemini call (line 340):
`[prompt, room_img, edited_img]`. -/
def reviewRemovalContents (room edited desc addl : String) : List Part :=
  [.text (reviewerPromptRemoval desc addl), .image room, .image edited]

/-- Contents of the `_examine_removal` Gemini call (line 358). -/
def examineRemovalContents (room edited desc review addl : String) :
    List Part :=
  [.text (examinerPromptRemoval desc review addl), .image room, .image edited]

/-! ### Output paths -/

/-- Last `/`-separated component of a path. -/
def baseName : List Char → List Char → List Char
  | [], cur => cur.reverse
  | c :: t, cur => if c = '/' then baseName t [] else baseName t (c :: cur)

/-- Drop up to and including the first `'.'`; `none` when there is no dot. -/
def dropExtRev : List Char → Option (List Char)
  | [] => none
  | c :: t => if c = '.' then some t else dropExtRev t

/-- `pathlib.Path(p).stem`: final component without its last extension
(`"a/b/room1.jpg" ↦ "room1"`; pathlib corner cases with leading/trailing
dots play no role in any claim). -/
def stem (p : String) : String :=
  let name := baseName p.data []
  match dropExtRev name.reverse with
  | some rest => if rest.isEmpty then ⟨name⟩ else ⟨rest.reverse⟩
  | none => ⟨name⟩

/-- `Config.OUTPUT_DIR`, modelled as its path relative to the project root. -/
def OUTPUT_DIR : String := "data/output"

/-- Per-attempt output path of the insertion loop (lines 214–218). -/
def insertAttemptOutput (room item : String) (i : Nat) : String :=
  OUTPUT_DIR ++ "/" ++ stem room ++ "_with_" ++ stem item ++ "_attempt"
    ++ toString i ++ ".jpg"

/-- Per-attempt output path of the removal loop (lines 407–410). -/
def removalAttemptOutput (room : String) (i : Nat) : String :=
  OUTPUT_DIR ++ "/" ++ stem room ++ "_removed_attempt" ++ toString i ++ ".jpg"

/-- Prompt assembly (lines 202–211 / 395–404): the description, then the
stripped additional instructions when non-empty, then — when the feedback
accumulator is non-empty — the corrections preamble followed by the
space-joined accumulated feedback; all joined by `". "`. -/
def buildFullPrompt (desc addl : String) (accFb : List String) : String :=
  joinWith ". " ([desc]
    ++ (if strip addl ≠ "" then [strip addl] else [])
    ++ (if accFb ≠ [] then
          ["IMPORTANT corrections from previous attempts: "
            ++ joinWith " " accFb]
        else []))

/-! ### The two run functions -/

/-- Arguments of `generate_with_verification` other than `max_attempts`;
`hasObserver` models whether `on_attempt` is `None`. -/
structure InsertParams where
  room_image_path : String
  item_image_path : String
  placement_description : String
  additional_instructions : String
  hasObserver : Bool
deriving DecidableEq

/-- Arguments of `generate_removal_with_verification`. -/
structure RemovalParams where
  room_image_path : String
  location_description : String
  additional_instructions : String
  hasObserver : Bool
deriving DecidableEq

/-- The external world, per attempt index: the compositor result path, the
reviewer text, and the raw examiner response; `.error` models a raised
exception (no image payload, no text, missing credentials, ...). -/
structure Oracle where
  genPath : Nat → Except String String
  reviewText : Nat → Except String String
  examineRaw : Nat → Except String String

/-- An oracle none of whose calls raises. -/
def okOracle (g r e : Nat → String) : Oracle :=
  ⟨fun i => .ok (g i), fun i => .ok (r i), fun i => .ok (e i)⟩

/-- Plumbing of `attempts.append(attempt)` in the unwinding formulation: a
normally returned result gains the current attempt at the front of its
history; an exception passes through unchanged. -/
def prependAttempt (att : PlacementAttempt) :
    Except String VerifiedPlacementResult →
    Except String VerifiedPlacementResult
  | .error e => .error e
  | .ok v => .ok ⟨v.final_image_path, v.passed, att :: v.attempts⟩

@[simp] lemma prependAttempt_error (att : PlacementAttempt) (e : String) :
    prependAttempt att (.error e) = .error e := rfl

@[simp] lemma prependAttempt_ok (att : PlacementAttempt)
    (v : VerifiedPlacementResult) :
    prependAttempt att (.ok v) =
      .ok ⟨v.final_image_path, v.passed, att :: v.attempts⟩ := rfl

/-- The loop of `generate_with_verification` (lines 201–272), as recursion on
the number of remaining iterations; `i` is the 1-based attempt index,
`accFb` the feedback accumulator, `resultPath?` the state of the local
variable `result_path` (`none` = never assigned).  The trace and the attempt
list are produced on unwinding rather than threaded, which is observably the
same. -/
def insertLoop (P : InsertParams) (o : Oracle) :
    Nat → Nat → List String → Option String →
    Trace × Except String VerifiedPlacementResult
  | 0, _i, _accFb, resultPath? =>
    (Trace.empty,
     match resultPath? with
     | some rp => .ok ⟨rp, false, []⟩
     | none => .error "UnboundLocalError: result_path")
  | fuel + 1, i, accFb, _ =>
    let fullPrompt :=
      buildFullPrompt P.placement_description P.additional_instructions accFb
    let out := insertAttemptOutput P.room_image_path P.item_image_path i
    let g : GenCall := ⟨P.room_image_path, some P.item_image_path, fullPrompt, out⟩
    match o.genPath i with
    | .error e => (⟨[g], [], []⟩, .error e)
    | .ok rp =>
      let rc := reviewContents P.room_image_path rp P.item_image_path
        P.placement_description P.additional_instructions
      match o.reviewText i with
      | .error e => (⟨[g], [rc], []⟩, .error e)
      | .ok review =>
        let ec := examineContents P.room_image_path rp P.item_image_path
          P.placement_description review P.additional_instructions
        match o.examineRaw i with
        | .error e => (⟨[g], [rc, ec], []⟩, .error e)
        | .ok raw =>
          let pf := parseExaminer raw
          let att : PlacementAttempt := ⟨i, rp, review, pf.1, pf.2⟩
          let obs := if P.hasObserver then [att] else []
          if pf.1 then
            (⟨[g], [rc, ec], obs⟩, .ok ⟨rp, true, [att]⟩)
          else
            let rest := insertLoop P o fuel (i + 1) (accFb ++ [pf.2]) (some rp)
            (Trace.append ⟨[g], [rc, ec], obs⟩ rest.1, prependAttempt att rest.2)

/-- `generate_with_verification` (lines 174–272). -/
def generate_with_verification (P : InsertParams) (o : Oracle)
    (max_attempts : Nat) : Trace × Except String VerifiedPlacementResult :=
  insertLoop P o max_attempts 1 [] none

/-- The loop of `generate_removal_with_verification` (lines 394–459);
same shape as `insertLoop` with the removal prompt builders, two-image
contents lists, and removal output naming. -/
def removalLoop (P : RemovalParams) (o : Oracle) :
    Nat → Nat → List String → Option String →
    Trace × Except String VerifiedPlacementResult
  | 0, _i, _accFb, resultPath? =>
    (Trace.empty,
     match resultPath? with
     | some rp => .ok ⟨rp, false, []⟩
     | none => .error "UnboundLocalError: result_path")
  | fuel + 1, i, accFb, _ =>
    let fullLocation :=
      buildFullPrompt P.location_description P.additional_instructions accFb
    let out := removalAttemptOutput P.room_image_path i
    let g : GenCall := ⟨P.room_image_path, none, fullLocation, out⟩
    match o.genPath i with
    | .error e => (⟨[g], [], []⟩, .error e)
    | .ok rp =>
      let rc := reviewRemovalContents P.room_image_path rp
        P.location_description P.additional_instructions
      match o.reviewText i with
      | .error e => (⟨[g], [rc], []⟩, .error e)
      | .ok review =>
        let ec := examineRemovalContents P.room_image_path rp
          P.location_description review P.additional_instructions
        match o.examineRaw i with
        | .error e => (⟨[g], [rc, ec], []⟩, .error e)
        | .ok raw =>
          let pf := parseExaminer raw
          let att : PlacementAttempt := ⟨i, rp, review, pf.1, pf.2⟩
          let obs := if P.hasObserver then [att] else []
          if pf.1 then
            (⟨[g], [rc, ec], obs⟩, .ok ⟨rp, true, [att]⟩)
          else
            let rest := removalLoop P o fuel (i + 1) (accFb ++ [pf.2]) (some rp)
            (Trace.append ⟨[g], [rc, ec], obs⟩ rest.1, prependAttempt att rest.2)

/-- `generate_removal_with_verification` (lines 370–459). -/
def generate_removal_with_verification (P : RemovalParams) (o : Oracle)
    (max_attempts : Nat) : Trace × Except String VerifiedPlacementResult :=
  removalLoop P o max_attempts 1 [] none

/-! ### Abbreviations for run outcomes under a non-raising oracle -/

/-- The examiner verdict at attempt `j` (parsed from the raw response). -/
def vd (e : Nat → String) (j : Nat) : Bool := (parseExaminer (e j)).1

/-- The examiner feedback at attempt `j` (parsed from the raw response). -/
def fbOf (e : Nat → String) (j : Nat) : String := (parseExaminer (e j)).2

/-- The attempt record produced at attempt `j` under a non-raising oracle. -/
def recAt (g r e : Nat → String) (j : Nat) : PlacementAttempt :=
  ⟨j, g j, r j, vd e j, fbOf e j⟩

/-- The attempt records of attempts `i, i+1, ..., i+n-1`. -/
def attsFrom (g r e : Nat → String) (i n : Nat) : List PlacementAttempt :=
  (List.range' i n).map (recAt g r e)

/-- The feedback strings of attempts `i, ..., i+n-1`. -/
def fbsFrom (e : Nat → String) (i n : Nat) : List String :=
  (List.range' i n).map (fbOf e)

/-- The compositor call of insertion attempt `j` with accumulator `accFb`. -/
def insGenCall (P : InsertParams) (accFb : List String) (j : Nat) : GenCall :=
  ⟨P.room_image_path, some P.item_image_path,
   buildFullPrompt P.placement_description P.additional_instructions accFb,
   insertAttemptOutput P.room_image_path P.item_image_path j⟩

/-- The reviewer contents of an insertion attempt whose composite is `gp`. -/
def insReviewCts (P : InsertParams) (gp : String) : List Part :=
  reviewContents P.room_image_path gp P.item_image_path
    P.placement_description P.additional_instructions

/-- The examiner contents of an insertion attempt (composite `gp`,
review `rv`). -/
def insExamineCts (P : InsertParams) (gp rv : String) : List Part :=
  examineContents P.room_image_path gp P.item_image_path
    P.placement_description rv P.additional_instructions

/-! ### Step lemmas for `insertLoop` -/

lemma insertLoop_zero_none (P : InsertParams) (o : Oracle) (i : Nat)
    (accFb : List String) :
    insertLoop P o 0 i accFb none =
      (Trace.empty, .error "UnboundLocalError: result_path") := rfl

lemma insertLoop_zero_some (P : InsertParams) (o : Oracle) (i : Nat)
    (accFb : List String) (rp : String) :
    insertLoop P o 0 i accFb (some rp) = (Trace.empty, .ok ⟨rp, false, []⟩) :=
  rfl

lemma insertLoop_genErr (P : InsertParams) (o : Oracle) (f i : Nat)
    (accFb : List String) (rp? : Option String) (err : String)
    (hg : o.genPath i = .error err) :
    insertLoop P o (f + 1) i accFb rp? =
      (⟨[insGenCall P accFb i], [], []⟩, .error err) := by
  simp only [insertLoop, hg, insGenCall]

lemma insertLoop_revErr (P : InsertParams) (o : Oracle) (f i : Nat)
    (accFb : List String) (rp? : Option String) (gp err : String)
    (hg : o.genPath i = .ok gp) (hr : o.reviewText i = .error err) :
    insertLoop P o (f + 1) i accFb rp? =
      (⟨[insGenCall P accFb i], [insReviewCts P gp], []⟩, .error err) := by
  simp only [insertLoop, hg, hr, insGenCall, insReviewCts]

lemma insertLoop_examErr (P : InsertParams) (o : Oracle) (f i : Nat)
    (accFb : List String) (rp? : Option String) (gp rv err : String)
    (hg : o.genPath i = .ok gp) (hr : o.reviewText i = .ok rv)
    (he : o.examineRaw i = .error err) :
    insertLoop P o (f + 1) i accFb rp? =
      (⟨[insGenCall P accFb i], [insReviewCts P gp, insExamineCts P gp rv], []⟩,
       .error err) := by
  simp only [insertLoop, hg, hr, he, insGenCall, insReviewCts, insExamineCts]

lemma insertLoop_stepPass (P : InsertParams) (o : Oracle) (f i : Nat)
    (accFb : List String) (rp? : Option String) (gp rv ex : String)
    (hg : o.genPath i = .ok gp) (hr : o.reviewText i = .ok rv)
    (he : o.examineRaw i = .ok ex) (hv : (parseExaminer ex).1 = true) :
    insertLoop P o (f + 1) i accFb rp? =
      (⟨[insGenCall P accFb i], [insReviewCts P gp, insExamineCts P gp rv],
        if P.hasObserver then [⟨i, gp, rv, true, (parseExaminer ex).2⟩] else []⟩,
       .ok ⟨gp, true, [⟨i, gp, rv, true, (parseExaminer ex).2⟩]⟩) := by
  simp only [insertLoop, hg, hr, he, hv, insGenCall, insReviewCts,
    insExamineCts, if_true]

lemma insertLoop_stepFail (P : InsertParams) (o : Oracle) (f i : Nat)
    (accFb : List String) (rp? : Option String) (gp rv ex : String)
    (hg : o.genPath i = .ok gp) (hr : o.reviewText i = .ok rv)
    (he : o.examineRaw i = .ok ex) (hv : (parseExaminer ex).1 = false) :
    insertLoop P o (f + 1) i accFb rp? =
      (Trace.append
        ⟨[insGenCall P accFb i], [insReviewCts P gp, insExamineCts P gp rv],
         if P.hasObserver then [⟨i, gp, rv, false, (parseExaminer ex).2⟩]
         else []⟩
        (insertLoop P o f (i + 1) (accFb ++ [(parseExaminer ex).2])
          (some gp)).1,
       prependAttempt ⟨i, gp, rv, false, (parseExaminer ex).2⟩
        (insertLoop P o f (i + 1) (accFb ++ [(parseExaminer ex).2])
          (some gp)).2) := by
  simp only [insertLoop, hg, hr, he, hv, insGenCall, insReviewCts,
    insExamineCts, if_false, Bool.false_eq_true]

/-! ### Number of attempts a run performs under a non-raising oracle -/

/-- Number of attempts performed starting at index `i` with `fuel` remaining
iterations: stops at the first passing verdict, else runs out of fuel. -/
def stopCount (e : Nat → String) : Nat → Nat → Nat
  | _i, 0 => 0
  | i, fuel + 1 => if vd e i then 1 else 1 + stopCount e (i + 1) fuel

lemma stopCount_pos (e : Nat → String) (i fuel : Nat) :
    1 ≤ stopCount e i (fuel + 1) := by
  simp only [stopCount]
  split <;> omega

lemma stopCount_le (e : Nat → String) : ∀ fuel i, stopCount e i fuel ≤ fuel
  | 0, _ => Nat.le_refl 0
  | fuel + 1, i => by
    simp only [stopCount]
    have := stopCount_le e fuel (i + 1)
    split <;> omega

lemma stopCount_all_fail (e : Nat → String) :
    ∀ fuel i, (∀ t, t < fuel → vd e (i + t) = false) →
      stopCount e i fuel = fuel
  | 0, _, _ => rfl
  | fuel + 1, i, h => by
    have h0 : vd e i = false := by simpa using h 0 (Nat.succ_pos fuel)
    have hrest : ∀ t, t < fuel → vd e (i + 1 + t) = false := by
      intro t ht
      have := h (t + 1) (by omega)
      simpa [Nat.add_assoc, Nat.add_comm 1 t] using this
    simp only [stopCount, h0, if_false, Bool.false_eq_true,
      stopCount_all_fail e fuel (i + 1) hrest]
    omega

lemma stopCount_first_pass (e : Nat → String) :
    ∀ d fuel i, d < fuel → (∀ t, t < d → vd e (i + t) = false) →
      vd e (i + d) = true → stopCount e i fuel = d + 1
  | 0, fuel, i, hd, _, hp => by
    obtain ⟨f, rfl⟩ : ∃ f, fuel = f + 1 := ⟨fuel - 1, by omega⟩
    have hp' : vd e i = true := by simpa using hp
    simp [stopCount, hp']
  | d + 1, fuel, i, hd, hf, hp => by
    obtain ⟨f, rfl⟩ : ∃ f, fuel = f + 1 := ⟨fuel - 1, by omega⟩
    have h0 : vd e i = false := by simpa using hf 0 (Nat.succ_pos d)
    have hrest : ∀ t, t < d → vd e (i + 1 + t) = false := by
      intro t ht
      have := hf (t + 1) (by omega)
      simpa [Nat.add_assoc, Nat.add_comm 1 t] using this
    have hp' : vd e (i + 1 + d) = true := by
      simpa [Nat.add_assoc, Nat.add_comm 1 d] using hp
    have := stopCount_first_pass e d f (i + 1) (by omega) hrest hp'
    simp only [stopCount, h0, if_false, Bool.false_eq_true, this]
    omega

/-! ### Full characterization of a run under a non-raising oracle -/

@[simp] lemma Trace.append_empty (a : Trace) : a.append Trace.empty = a := by
  simp [Trace.append, Trace.empty]

lemma attsFrom_succ (g r e : Nat → String) (i n : Nat) :
    attsFrom g r e i (n + 1) = recAt g r e i :: attsFrom g r e (i + 1) n := by
  simp [attsFrom, List.range'_succ]

lemma fbsFrom_succ (e : Nat → String) (i n : Nat) :
    fbsFrom e i (n + 1) = fbOf e i :: fbsFrom e (i + 1) n := by
  simp [fbsFrom, List.range'_succ]

@[simp] lemma attsFrom_zero (g r e : Nat → String) (i : Nat) :
    attsFrom g r e i 0 = [] := rfl

@[simp] lemma fbsFrom_zero (e : Nat → String) (i : Nat) : fbsFrom e i 0 = [] :=
  rfl

lemma insertLoop_master (P : InsertParams) (g r e : Nat → String) :
    ∀ fuel i accFb rp?, 1 ≤ fuel →
    insertLoop P (okOracle g r e) fuel i accFb rp? =
      (⟨(List.range' i (stopCount e i fuel)).map
          (fun j => insGenCall P (accFb ++ fbsFrom e i (j - i)) j),
        ((List.range' i (stopCount e i fuel)).map
          (fun j =>
            [insReviewCts P (g j), insExamineCts P (g j) (r j)])).flatten,
        if P.hasObserver then attsFrom g r e i (stopCount e i fuel) else []⟩,
       .ok ⟨g (i + stopCount e i fuel - 1), vd e (i + stopCount e i fuel - 1),
            attsFrom g r e i (stopCount e i fuel)⟩) := by
  intro fuel
  induction fuel with
  | zero => omega
  | succ f ih =>
    intro i accFb rp? _
    by_cases hv : vd e i = true
    · have hv2 : (parseExaminer (e i)).1 = true := hv
      have hm : stopCount e i (f + 1) = 1 := by simp [stopCount, hv]
      rw [insertLoop_stepPass P (okOracle g r e) f i accFb rp? (g i) (r i)
        (e i) rfl rfl rfl hv]
      simp [hm, attsFrom, fbsFrom, recAt, vd, fbOf, hv2, List.range'_one]
    · have hv' : vd e i = false := by simpa using hv
      have hv2 : (parseExaminer (e i)).1 = false := hv'
      have hm : stopCount e i (f + 1) = 1 + stopCount e (i + 1) f := by
        simp [stopCount, hv']
      rw [insertLoop_stepFail P (okOracle g r e) f i accFb rp? (g i) (r i)
        (e i) rfl rfl rfl hv']
      rcases Nat.eq_zero_or_pos f with hf | hf
      · subst hf
        rw [insertLoop_zero_some]
        have hm1 : stopCount e i (0 + 1) = 1 := by simp [stopCount, hv']
        by_cases ho : P.hasObserver <;>
          simp [hm1, Trace.append, Trace.empty, prependAttempt, attsFrom,
            fbsFrom, recAt, vd, fbOf, hv2, ho, List.range'_one]
      · rw [ih (i + 1) (accFb ++ [(parseExaminer (e i)).2]) (some (g i)) hf]
        rw [hm]
        set m := stopCount e (i + 1) f with hmdef
        have hrange : List.range' i (1 + m) = i :: List.range' (i + 1) m := by
          rw [Nat.add_comm 1 m, List.range'_succ]
        have hmap : (List.range' (i + 1) m).map
            (fun j => insGenCall P
              ((accFb ++ [(parseExaminer (e i)).2])
                ++ fbsFrom e (i + 1) (j - (i + 1))) j)
            = (List.range' (i + 1) m).map
              (fun j => insGenCall P (accFb ++ fbsFrom e i (j - i)) j) := by
          apply List.map_congr_left
          intro j hj
          have hij : i + 1 ≤ j := (List.mem_range'_1.mp hj).1
          have hsub : j - i = (j - (i + 1)) + 1 := by omega
          rw [hsub, fbsFrom_succ, List.append_assoc, List.singleton_append]
          rfl
        have harith : i + 1 + m - 1 = i + (1 + m) - 1 := by omega
        rw [hrange, List.map_cons, List.map_cons, ← hmap]
        have hatts : attsFrom g r e i (1 + m) =
            recAt g r e i :: attsFrom g r e (i + 1) m := by
          rw [Nat.add_comm 1 m, attsFrom_succ]
        rw [hatts, ← harith]
        by_cases ho : P.hasObserver <;>
          simp [Trace.append, prependAttempt, recAt, vd, fbOf, hv2, ho,
            Nat.sub_self]


/-! ### Removal-loop analogues -/

/-- The compositor call of removal attempt `j` with accumulator `accFb`. -/
def remGenCall (P : RemovalParams) (accFb : List String) (j : Nat) : GenCall :=
  ⟨P.room_image_path, none,
   buildFullPrompt P.location_description P.additional_instructions accFb,
   removalAttemptOutput P.room_image_path j⟩

/-- The reviewer contents of a removal attempt whose edited image is `gp`. -/
def remReviewCts (P : RemovalParams) (gp : String) : List Part :=
  reviewRemovalContents P.room_image_path gp P.location_description
    P.additional_instructions

/-- The examiner contents of a removal attempt (edit `gp`, review `rv`). -/
def remExamineCts (P : RemovalParams) (gp rv : String) : List Part :=
  examineRemovalContents P.room_image_path gp P.location_description rv
    P.additional_instructions

lemma removalLoop_zero_none (P : RemovalParams) (o : Oracle) (i : Nat)
    (accFb : List String) :
    removalLoop P o 0 i accFb none =
      (Trace.empty, .error "UnboundLocalError: result_path") := rfl

lemma removalLoop_zero_some (P : RemovalParams) (o : Oracle) (i : Nat)
    (accFb : List String) (rp : String) :
    removalLoop P o 0 i accFb (some rp) = (Trace.empty, .ok ⟨rp, false, []⟩) :=
  rfl

lemma removalLoop_genErr (P : RemovalParams) (o : Oracle) (f i : Nat)
    (accFb : List String) (rp? : Option String) (err : String)
    (hg : o.genPath i = .error err) :
    removalLoop P o (f + 1) i accFb rp? =
      (⟨[remGenCall P accFb i], [], []⟩, .error err) := by
  simp only [removalLoop, hg, remGenCall]

lemma removalLoop_revErr (P : RemovalParams) (o : Oracle) (f i : Nat)
    (accFb : List String) (rp? : Option String) (gp err : String)
    (hg : o.genPath i = .ok gp) (hr : o.reviewText i = .error err) :
    removalLoop P o (f + 1) i accFb rp? =
      (⟨[remGenCall P accFb i], [remReviewCts P gp], []⟩, .error err) := by
  simp only [removalLoop, hg, hr, remGenCall, remReviewCts]

lemma removalLoop_examErr (P : RemovalParams) (o : Oracle) (f i : Nat)
    (accFb : List String) (rp? : Option String) (gp rv err : String)
    (hg : o.genPath i = .ok gp) (hr : o.reviewText i = .ok rv)
    (he : o.examineRaw i = .error err) :
    removalLoop P o (f + 1) i accFb rp? =
      (⟨[remGenCall P accFb i], [remReviewCts P gp, remExamineCts P gp rv], []⟩,
       .error err) := by
  simp only [removalLoop, hg, hr, he, remGenCall, remReviewCts, remExamineCts]

lemma removalLoop_stepPass (P : RemovalParams) (o : Oracle) (f i : Nat)
    (accFb : List String) (rp? : Option String) (gp rv ex : String)
    (hg : o.genPath i = .ok gp) (hr : o.reviewText i = .ok rv)
    (he : o.examineRaw i = .ok ex) (hv : (parseExaminer ex).1 = true) :
    removalLoop P o (f + 1) i accFb rp? =
      (⟨[remGenCall P accFb i], [remReviewCts P gp, remExamineCts P gp rv],
        if P.hasObserver then [⟨i, gp, rv, true, (parseExaminer ex).2⟩] else []⟩,
       .ok ⟨gp, true, [⟨i, gp, rv, true, (parseExaminer ex).2⟩]⟩) := by
  simp only [removalLoop, hg, hr, he, hv, remGenCall, remReviewCts,
    remExamineCts, if_true]

lemma removalLoop_stepFail (P : RemovalParams) (o : Oracle) (f i : Nat)
    (accFb : List String) (rp? : Option String) (gp rv ex : String)
    (hg : o.genPath i = .ok gp) (hr : o.reviewText i = .ok rv)
    (he : o.examineRaw i = .ok ex) (hv : (parseExaminer ex).1 = false) :
    removalLoop P o (f + 1) i accFb rp? =
      (Trace.append
        ⟨[remGenCall P accFb i], [remReviewCts P gp, remExamineCts P gp rv],
         if P.hasObserver then [⟨i, gp, rv, false, (parseExaminer ex).2⟩]
         else []⟩
        (removalLoop P o f (i + 1) (accFb ++ [(parseExaminer ex).2])
          (some gp)).1,
       prependAttempt ⟨i, gp, rv, false, (parseExaminer ex).2⟩
        (removalLoop P o f (i + 1) (accFb ++ [(parseExaminer ex).2])
          (some gp)).2) := by
  simp only [removalLoop, hg, hr, he, hv, remGenCall, remReviewCts,
    remExamineCts, if_false, Bool.false_eq_true]

lemma removalLoop_master (P : RemovalParams) (g r e : Nat → String) :
    ∀ fuel i accFb rp?, 1 ≤ fuel →
    removalLoop P (okOracle g r e) fuel i accFb rp? =
      (⟨(List.range' i (stopCount e i fuel)).map
          (fun j => remGenCall P (accFb ++ fbsFrom e i (j - i)) j),
        ((List.range' i (stopCount e i fuel)).map
          (fun j =>
            [remReviewCts P (g j), remExamineCts P (g j) (r j)])).flatten,
        if P.hasObserver then attsFrom g r e i (stopCount e i fuel) else []⟩,
       .ok ⟨g (i + stopCount e i fuel - 1), vd e (i + stopCount e i fuel - 1),
            attsFrom g r e i (stopCount e i fuel)⟩) := by
  intro fuel
  induction fuel with
  | zero => omega
  | succ f ih =>
    intro i accFb rp? _
    by_cases hv : vd e i = true
    · have hv2 : (parseExaminer (e i)).1 = true := hv
      have hm : stopCount e i (f + 1) = 1 := by simp [stopCount, hv]
      rw [removalLoop_stepPass P (okOracle g r e) f i accFb rp? (g i) (r i)
        (e i) rfl rfl rfl hv]
      simp [hm, attsFrom, fbsFrom, recAt, vd, fbOf, hv2, List.range'_one]
    · have hv' : vd e i = false := by simpa using hv
      have hv2 : (parseExaminer (e i)).1 = false := hv'
      have hm : stopCount e i (f + 1) = 1 + stopCount e (i + 1) f := by
        simp [stopCount, hv']
      rw [removalLoop_stepFail P (okOracle g r e) f i accFb rp? (g i) (r i)
        (e i) rfl rfl rfl hv']
      rcases Nat.eq_zero_or_pos f with hf | hf
      · subst hf
        rw [removalLoop_zero_some]
        have hm1 : stopCount e i (0 + 1) = 1 := by simp [stopCount, hv']
        by_cases ho : P.hasObserver <;>
          simp [hm1, Trace.append, Trace.empty, prependAttempt, attsFrom,
            fbsFrom, recAt, vd, fbOf, hv2, ho, List.range'_one]
      · rw [ih (i + 1) (accFb ++ [(parseExaminer (e i)).2]) (some (g i)) hf]
        rw [hm]
        set m := stopCount e (i + 1) f with hmdef
        have hrange : List.range' i (1 + m) = i :: List.range' (i + 1) m := by
          rw [Nat.add_comm 1 m, List.range'_succ]
        have hmap : (List.range' (i + 1) m).map
            (fun j => remGenCall P
              ((accFb ++ [(parseExaminer (e i)).2])
                ++ fbsFrom e (i + 1) (j - (i + 1))) j)
            = (List.range' (i + 1) m).map
              (fun j => remGenCall P (accFb ++ fbsFrom e i (j - i)) j) := by
          apply List.map_congr_left
          intro j hj
          have hij : i + 1 ≤ j := (List.mem_range'_1.mp hj).1
          have hsub : j - i = (j - (i + 1)) + 1 := by omega
          rw [hsub, fbsFrom_succ, List.append_assoc, List.singleton_append]
          rfl
        have harith : i + 1 + m - 1 = i + (1 + m) - 1 := by omega
        rw [hrange, List.map_cons, List.map_cons, ← hmap]
        have hatts : attsFrom g r e i (1 + m) =
            recAt g r e i :: attsFrom g r e (i + 1) m := by
          rw [Nat.add_comm 1 m, attsFrom_succ]
        rw [hatts, ← harith]
        by_cases ho : P.hasObserver <;>
          simp [Trace.append, prependAttempt, recAt, vd, fbOf, hv2, ho,
            Nat.sub_self]

/-! ### Invariants under an arbitrary oracle -/

lemma insertLoop_ok_inv (P : InsertParams) (o : Oracle) :
    ∀ fuel i accFb rp? tr v,
      insertLoop P o fuel i accFb rp? = (tr, .ok v) →
      v.attempts.map (fun a => a.attempt) = List.range' i v.attempts.length ∧
      v.attempts.length ≤ fuel ∧
      (v.attempts = [] → rp? = some v.final_image_path ∧ v.passed = false) ∧
      (∀ a, v.attempts.getLast? = some a → v.final_image_path = a.image_path) ∧
      (rp? = none → v.attempts ≠ []) ∧
      tr.observerCalls = (if P.hasObserver then v.attempts else []) := by
  intro fuel
  induction fuel with
  | zero =>
    intro i accFb rp? tr v h
    cases rp? with
    | none => rw [insertLoop_zero_none] at h; simp at h
    | some rp =>
      rw [insertLoop_zero_some] at h
      simp only [Prod.mk.injEq, Except.ok.injEq] at h
      obtain ⟨rfl, rfl⟩ := h
      simp [Trace.empty]
  | succ f ih =>
    intro i accFb rp? tr v h
    cases hg : o.genPath i with
    | error err => rw [insertLoop_genErr P o f i accFb rp? err hg] at h; simp at h
    | ok gp =>
    cases hr : o.reviewText i with
    | error err =>
      rw [insertLoop_revErr P o f i accFb rp? gp err hg hr] at h; simp at h
    | ok rv =>
    cases he : o.examineRaw i with
    | error err =>
      rw [insertLoop_examErr P o f i accFb rp? gp rv err hg hr he] at h
      simp at h
    | ok ex =>
    by_cases hv : (parseExaminer ex).1 = true
    · rw [insertLoop_stepPass P o f i accFb rp? gp rv ex hg hr he hv] at h
      simp only [Prod.mk.injEq, Except.ok.injEq] at h
      obtain ⟨rfl, rfl⟩ := h
      refine ⟨by simp [List.range'_one], by simp, by simp, ?_, by simp, rfl⟩
      intro a ha
      simp only [List.getLast?_singleton, Option.some.injEq] at ha
      subst ha
      rfl
    · have hv' : (parseExaminer ex).1 = false := by simpa using hv
      rw [insertLoop_stepFail P o f i accFb rp? gp rv ex hg hr he hv'] at h
      rcases hsplit : insertLoop P o f (i + 1) (accFb ++ [(parseExaminer ex).2])
        (some gp) with ⟨tr2, res2⟩
      rw [hsplit] at h
      cases res2 with
      | error err => simp only [prependAttempt_error] at h; simp at h
      | ok v2 =>
        simp only [prependAttempt_ok, Prod.mk.injEq, Except.ok.injEq] at h
        obtain ⟨rfl, rfl⟩ := h
        obtain ⟨ihmap, ihlen, ihnil, ihlast, _ihne, ihobs⟩ :=
          ih (i + 1) (accFb ++ [(parseExaminer ex).2]) (some gp) tr2 v2 hsplit
        refine ⟨?_, ?_, ?_, ?_, ?_, ?_⟩
        · simp only [List.map_cons, List.length_cons, List.range'_succ, ihmap]
        · simp only [List.length_cons]
          omega
        · intro hnil
          simp at hnil
        · intro a ha
          cases hatt2 : v2.attempts with
          | nil =>
            rw [hatt2] at ha
            simp only [List.getLast?_singleton, Option.some.injEq] at ha
            subst ha
            have := (ihnil hatt2).1
            simp only [Option.some.injEq] at this
            simp [this]
          | cons b t =>
            rw [hatt2] at ha
            rw [List.getLast?_cons_cons] at ha
            have := ihlast a (by rw [hatt2]; exact ha)
            simp [this]
        · intro _
          simp
        · simp only [Trace.append]
          rw [ihobs]
          by_cases ho : P.hasObserver <;> simp [ho]

lemma removalLoop_ok_inv (P : RemovalParams) (o : Oracle) :
    ∀ fuel i accFb rp? tr v,
      removalLoop P o fuel i accFb rp? = (tr, .ok v) →
      v.attempts.map (fun a => a.attempt) = List.range' i v.attempts.length ∧
      v.attempts.length ≤ fuel ∧
      (v.attempts = [] → rp? = some v.final_image_path ∧ v.passed = false) ∧
      (∀ a, v.attempts.getLast? = some a → v.final_image_path = a.image_path) ∧
      (rp? = none → v.attempts ≠ []) ∧
      tr.observerCalls = (if P.hasObserver then v.attempts else []) := by
  intro fuel
  induction fuel with
  | zero =>
    intro i accFb rp? tr v h
    cases rp? with
    | none => rw [removalLoop_zero_none] at h; simp at h
    | some rp =>
      rw [removalLoop_zero_some] at h
      simp only [Prod.mk.injEq, Except.ok.injEq] at h
      obtain ⟨rfl, rfl⟩ := h
      simp [Trace.empty]
  | succ f ih =>
    intro i accFb rp? tr v h
    cases hg : o.genPath i with
    | error err => rw [removalLoop_genErr P o f i accFb rp? err hg] at h; simp at h
    | ok gp =>
    cases hr : o.reviewText i with
    | error err =>
      rw [removalLoop_revErr P o f i accFb rp? gp err hg hr] at h; simp at h
    | ok rv =>
    cases he : o.examineRaw i with
    | error err =>
      rw [removalLoop_examErr P o f i accFb rp? gp rv err hg hr he] at h
      simp at h
    | ok ex =>
    by_cases hv : (parseExaminer ex).1 = true
    · rw [removalLoop_stepPass P o f i accFb rp? gp rv ex hg hr he hv] at h
      simp only [Prod.mk.injEq, Except.ok.injEq] at h
      obtain ⟨rfl, rfl⟩ := h
      refine ⟨by simp [List.range'_one], by simp, by simp, ?_, by simp, rfl⟩
      intro a ha
      simp only [List.getLast?_singleton, Option.some.injEq] at ha
      subst ha
      rfl
    · have hv' : (parseExaminer ex).1 = false := by simpa using hv
      rw [removalLoop_stepFail P o f i accFb rp? gp rv ex hg hr he hv'] at h
      rcases hsplit : removalLoop P o f (i + 1) (accFb ++ [(parseExaminer ex).2])
        (some gp) with ⟨tr2, res2⟩
      rw [hsplit] at h
      cases res2 with
      | error err => simp only [prependAttempt_error] at h; simp at h
      | ok v2 =>
        simp only [prependAttempt_ok, Prod.mk.injEq, Except.ok.injEq] at h
        obtain ⟨rfl, rfl⟩ := h
        obtain ⟨ihmap, ihlen, ihnil, ihlast, _ihne, ihobs⟩ :=
          ih (i + 1) (accFb ++ [(parseExaminer ex).2]) (some gp) tr2 v2 hsplit
        refine ⟨?_, ?_, ?_, ?_, ?_, ?_⟩
        · simp only [List.map_cons, List.length_cons, List.range'_succ, ihmap]
        · simp only [List.length_cons]
          omega
        · intro hnil
          simp at hnil
        · intro a ha
          cases hatt2 : v2.attempts with
          | nil =>
            rw [hatt2] at ha
            simp only [List.getLast?_singleton, Option.some.injEq] at ha
            subst ha
            have := (ihnil hatt2).1
            simp only [Option.some.injEq] at this
            simp [this]
          | cons b t =>
            rw [hatt2] at ha
            rw [List.getLast?_cons_cons] at ha
            have := ihlast a (by rw [hatt2]; exact ha)
            simp [this]
        · intro _
          simp
        · simp only [Trace.append]
          rw [ihobs]
          by_cases ho : P.hasObserver <;> simp [ho]

/-! ### The observer callback does not influence the run -/

lemma insertLoop_observer_blind (P : InsertParams) (o : Oracle) (b : Bool) :
    ∀ fuel i accFb rp?,
      (insertLoop { P with hasObserver := b } o fuel i accFb rp?).2 =
        (insertLoop P o fuel i accFb rp?).2 ∧
      (insertLoop { P with hasObserver := b } o fuel i accFb rp?).1.genCalls =
        (insertLoop P o fuel i accFb rp?).1.genCalls ∧
      (insertLoop { P with hasObserver := b } o fuel i accFb rp?).1.geminiCalls =
        (insertLoop P o fuel i accFb rp?).1.geminiCalls := by
  intro fuel
  induction fuel with
  | zero =>
    intro i accFb rp?
    cases rp? <;>
      simp [insertLoop_zero_none, insertLoop_zero_some]
  | succ f ih =>
    intro i accFb rp?
    cases hg : o.genPath i with
    | error err =>
      rw [insertLoop_genErr { P with hasObserver := b } o f i accFb rp? err hg,
        insertLoop_genErr P o f i accFb rp? err hg]
      exact ⟨rfl, rfl, rfl⟩
    | ok gp =>
    cases hr : o.reviewText i with
    | error err =>
      rw [insertLoop_revErr { P with hasObserver := b } o f i accFb rp? gp err
          hg hr,
        insertLoop_revErr P o f i accFb rp? gp err hg hr]
      exact ⟨rfl, rfl, rfl⟩
    | ok rv =>
    cases he : o.examineRaw i with
    | error err =>
      rw [insertLoop_examErr { P with hasObserver := b } o f i accFb rp? gp rv
          err hg hr he,
        insertLoop_examErr P o f i accFb rp? gp rv err hg hr he]
      exact ⟨rfl, rfl, rfl⟩
    | ok ex =>
    by_cases hv : (parseExaminer ex).1 = true
    · rw [insertLoop_stepPass { P with hasObserver := b } o f i accFb rp? gp rv
          ex hg hr he hv,
        insertLoop_stepPass P o f i accFb rp? gp rv ex hg hr he hv]
      exact ⟨rfl, rfl, rfl⟩
    · have hv' : (parseExaminer ex).1 = false := by simpa using hv
      rw [insertLoop_stepFail { P with hasObserver := b } o f i accFb rp? gp rv
          ex hg hr he hv',
        insertLoop_stepFail P o f i accFb rp? gp rv ex hg hr he hv']
      obtain ⟨ih1, ih2, ih3⟩ :=
        ih (i + 1) (accFb ++ [(parseExaminer ex).2]) (some gp)
      refine ⟨by rw [ih1], ?_, ?_⟩
      · simp only [Trace.append]
        rw [ih2]
        rfl
      · simp only [Trace.append]
        rw [ih3]
        rfl

lemma insertLoop_no_observer (P : InsertParams) (o : Oracle)
    (hobs : P.hasObserver = false) :
    ∀ fuel i accFb rp?,
      (insertLoop P o fuel i accFb rp?).1.observerCalls = [] := by
  intro fuel
  induction fuel with
  | zero =>
    intro i accFb rp?
    cases rp? <;>
      simp [insertLoop_zero_none, insertLoop_zero_some, Trace.empty]
  | succ f ih =>
    intro i accFb rp?
    cases hg : o.genPath i with
    | error err =>
      rw [insertLoop_genErr P o f i accFb rp? err hg]
    | ok gp =>
    cases hr : o.reviewText i with
    | error err =>
      rw [insertLoop_revErr P o f i accFb rp? gp err hg hr]
    | ok rv =>
    cases he : o.examineRaw i with
    | error err =>
      rw [insertLoop_examErr P o f i accFb rp? gp rv err hg hr he]
    | ok ex =>
    by_cases hv : (parseExaminer ex).1 = true
    · rw [insertLoop_stepPass P o f i accFb rp? gp rv ex hg hr he hv]
      simp [hobs]
    · have hv' : (parseExaminer ex).1 = false := by simpa using hv
      rw [insertLoop_stepFail P o f i accFb rp? gp rv ex hg hr he hv']
      simp only [Trace.append]
      rw [ih (i + 1) (accFb ++ [(parseExaminer ex).2]) (some gp)]
      simp [hobs]

lemma removalLoop_observer_blind (P : RemovalParams) (o : Oracle) (b : Bool) :
    ∀ fuel i accFb rp?,
      (removalLoop { P with hasObserver := b } o fuel i accFb rp?).2 =
        (removalLoop P o fuel i accFb rp?).2 ∧
      (removalLoop { P with hasObserver := b } o fuel i accFb rp?).1.genCalls =
        (removalLoop P o fuel i accFb rp?).1.genCalls ∧
      (removalLoop { P with hasObserver := b } o fuel i accFb rp?).1.geminiCalls =
        (removalLoop P o fuel i accFb rp?).1.geminiCalls := by
  intro fuel
  induction fuel with
  | zero =>
    intro i accFb rp?
    cases rp? <;>
      simp [removalLoop_zero_none, removalLoop_zero_some]
  | succ f ih =>
    intro i accFb rp?
    cases hg : o.genPath i with
    | error err =>
      rw [removalLoop_genErr { P with hasObserver := b } o f i accFb rp? err hg,
        removalLoop_genErr P o f i accFb rp? err hg]
      exact ⟨rfl, rfl, rfl⟩
    | ok gp =>
    cases hr : o.reviewText i with
    | error err =>
      rw [removalLoop_revErr { P with hasObserver := b } o f i accFb rp? gp err
          hg hr,
        removalLoop_revErr P o f i accFb rp? gp err hg hr]
      exact ⟨rfl, rfl, rfl⟩
    | ok rv =>
    cases he : o.examineRaw i with
    | error err =>
      rw [removalLoop_examErr { P with hasObserver := b } o f i accFb rp? gp rv
          err hg hr he,
        removalLoop_examErr P o f i accFb rp? gp rv err hg hr he]
      exact ⟨rfl, rfl, rfl⟩
    | ok ex =>
    by_cases hv : (parseExaminer ex).1 = true
    · rw [removalLoop_stepPass { P with hasObserver := b } o f i accFb rp? gp rv
          ex hg hr he hv,
        removalLoop_stepPass P o f i accFb rp? gp rv ex hg hr he hv]
      exact ⟨rfl, rfl, rfl⟩
    · have hv' : (parseExaminer ex).1 = false := by simpa using hv
      rw [removalLoop_stepFail { P with hasObserver := b } o f i accFb rp? gp rv
          ex hg hr he hv',
        removalLoop_stepFail P o f i accFb rp? gp rv ex hg hr he hv']
      obtain ⟨ih1, ih2, ih3⟩ :=
        ih (i + 1) (accFb ++ [(parseExaminer ex).2]) (some gp)
      refine ⟨by rw [ih1], ?_, ?_⟩
      · simp only [Trace.append]
        rw [ih2]
        rfl
      · simp only [Trace.append]
        rw [ih3]
        rfl

lemma removalLoop_no_observer (P : RemovalParams) (o : Oracle)
    (hobs : P.hasObserver = false) :
    ∀ fuel i accFb rp?,
      (removalLoop P o fuel i accFb rp?).1.observerCalls = [] := by
  intro fuel
  induction fuel with
  | zero =>
    intro i accFb rp?
    cases rp? <;>
      simp [removalLoop_zero_none, removalLoop_zero_some, Trace.empty]
  | succ f ih =>
    intro i accFb rp?
    cases hg : o.genPath i with
    | error err =>
      rw [removalLoop_genErr P o f i accFb rp? err hg]
    | ok gp =>
    cases hr : o.reviewText i with
    | error err =>
      rw [removalLoop_revErr P o f i accFb rp? gp err hg hr]
    | ok rv =>
    cases he : o.examineRaw i with
    | error err =>
      rw [removalLoop_examErr P o f i accFb rp? gp rv err hg hr he]
    | ok ex =>
    by_cases hv : (parseExaminer ex).1 = true
    · rw [removalLoop_stepPass P o f i accFb rp? gp rv ex hg hr he hv]
      simp [hobs]
    · have hv' : (parseExaminer ex).1 = false := by simpa using hv
      rw [removalLoop_stepFail P o f i accFb rp? gp rv ex hg hr he hv']
      simp only [Trace.append]
      rw [ih (i + 1) (accFb ++ [(parseExaminer ex).2]) (some gp)]
      simp [hobs]

/-! ### Shape of every Gemini call's contents list -/

lemma insertLoop_images (P : InsertParams) (o : Oracle) :
    ∀ fuel i accFb rp? cts,
      cts ∈ (insertLoop P o fuel i accFb rp?).1.geminiCalls →
      ∃ rp, imagesOf cts = [P.room_image_path, rp, P.item_image_path] := by
  intro fuel
  induction fuel with
  | zero =>
    intro i accFb rp? cts h
    cases rp? <;> simp [insertLoop_zero_none, insertLoop_zero_some,
      Trace.empty] at h
  | succ f ih =>
    intro i accFb rp? cts h
    cases hg : o.genPath i with
    | error err =>
      rw [insertLoop_genErr P o f i accFb rp? err hg] at h
      simp at h
    | ok gp =>
    cases hr : o.reviewText i with
    | error err =>
      rw [insertLoop_revErr P o f i accFb rp? gp err hg hr] at h
      simp only [List.mem_singleton] at h
      subst h
      exact ⟨gp, by simp [insReviewCts, reviewContents, imagesOf]⟩
    | ok rv =>
    cases he : o.examineRaw i with
    | error err =>
      rw [insertLoop_examErr P o f i accFb rp? gp rv err hg hr he] at h
      simp only [List.mem_cons, List.not_mem_nil, or_false] at h
      rcases h with rfl | rfl
      · exact ⟨gp, by simp [insReviewCts, reviewContents, imagesOf]⟩
      · exact ⟨gp, by simp [insExamineCts, examineContents, imagesOf]⟩
    | ok ex =>
    by_cases hv : (parseExaminer ex).1 = true
    · rw [insertLoop_stepPass P o f i accFb rp? gp rv ex hg hr he hv] at h
      simp only [List.mem_cons, List.not_mem_nil, or_false] at h
      rcases h with rfl | rfl
      · exact ⟨gp, by simp [insReviewCts, reviewContents, imagesOf]⟩
      · exact ⟨gp, by simp [insExamineCts, examineContents, imagesOf]⟩
    · have hv' : (parseExaminer ex).1 = false := by simpa using hv
      rw [insertLoop_stepFail P o f i accFb rp? gp rv ex hg hr he hv'] at h
      simp only [Trace.append, List.mem_append] at h
      rcases h with h | h
      · simp only [List.mem_cons, List.not_mem_nil, or_false] at h
        rcases h with rfl | rfl
        · exact ⟨gp, by simp [insReviewCts, reviewContents, imagesOf]⟩
        · exact ⟨gp, by simp [insExamineCts, examineContents, imagesOf]⟩
      · exact ih (i + 1) (accFb ++ [(parseExaminer ex).2]) (some gp) cts h

lemma removalLoop_images (P : RemovalParams) (o : Oracle) :
    ∀ fuel i accFb rp? cts,
      cts ∈ (removalLoop P o fuel i accFb rp?).1.geminiCalls →
      ∃ rp, imagesOf cts = [P.room_image_path, rp] := by
  intro fuel
  induction fuel with
  | zero =>
    intro i accFb rp? cts h
    cases rp? <;> simp [removalLoop_zero_none, removalLoop_zero_some,
      Trace.empty] at h
  | succ f ih =>
    intro i accFb rp? cts h
    cases hg : o.genPath i with
    | error err =>
      rw [removalLoop_genErr P o f i accFb rp? err hg] at h
      simp at h
    | ok gp =>
    cases hr : o.reviewText i with
    | error err =>
      rw [removalLoop_revErr P o f i accFb rp? gp err hg hr] at h
      simp only [List.mem_singleton] at h
      subst h
      exact ⟨gp, by simp [remReviewCts, reviewRemovalContents, imagesOf]⟩
    | ok rv =>
    cases he : o.examineRaw i with
    | error err =>
      rw [removalLoop_examErr P o f i accFb rp? gp rv err hg hr he] at h
      simp only [List.mem_cons, List.not_mem_nil, or_false] at h
      rcases h with rfl | rfl
      · exact ⟨gp, by simp [remReviewCts, reviewRemovalContents, imagesOf]⟩
      · exact ⟨gp, by simp [remExamineCts, examineRemovalContents, imagesOf]⟩
    | ok ex =>
    by_cases hv : (parseExaminer ex).1 = true
    · rw [removalLoop_stepPass P o f i accFb rp? gp rv ex hg hr he hv] at h
      simp only [List.mem_cons, List.not_mem_nil, or_false] at h
      rcases h with rfl | rfl
      · exact ⟨gp, by simp [remReviewCts, reviewRemovalContents, imagesOf]⟩
      · exact ⟨gp, by simp [remExamineCts, examineRemovalContents, imagesOf]⟩
    · have hv' : (parseExaminer ex).1 = false := by simpa using hv
      rw [removalLoop_stepFail P o f i accFb rp? gp rv ex hg hr he hv'] at h
      simp only [Trace.append, List.mem_append] at h
      rcases h with h | h
      · simp only [List.mem_cons, List.not_mem_nil, or_false] at h
        rcases h with rfl | rfl
        · exact ⟨gp, by simp [remReviewCts, reviewRemovalContents, imagesOf]⟩
        · exact ⟨gp, by simp [remExamineCts, examineRemovalContents, imagesOf]⟩
      · exact ih (i + 1) (accFb ++ [(parseExaminer ex).2]) (some gp) cts h

/-! ### Propagation of a raised exception -/

/-- One of the three external calls of attempt `j` raises `err`: the
compositor, or the reviewer Gemini call, or the examiner Gemini call. -/
def errAt (o : Oracle) (err : String) (j : Nat) : Prop :=
  o.genPath j = .error err ∨
  (∃ gp, o.genPath j = .ok gp ∧ o.reviewText j = .error err) ∨
  (∃ gp rv, o.genPath j = .ok gp ∧ o.reviewText j = .ok rv ∧
    o.examineRaw j = .error err)

lemma insertLoop_err (P : InsertParams) (o : Oracle) (g r e : Nat → String)
    (err : String) :
    ∀ d fuel i accFb rp?, d < fuel →
      (∀ t, t < d → o.genPath (i + t) = .ok (g (i + t)) ∧
        o.reviewText (i + t) = .ok (r (i + t)) ∧
        o.examineRaw (i + t) = .ok (e (i + t)) ∧ vd e (i + t) = false) →
      errAt o err (i + d) →
      (insertLoop P o fuel i accFb rp?).2 = .error err ∧
      (insertLoop P o fuel i accFb rp?).1.observerCalls =
        (if P.hasObserver then attsFrom g r e i d else []) ∧
      (insertLoop P o fuel i accFb rp?).1.genCalls.length = d + 1 ∧
      (insertLoop P o fuel i accFb rp?).1.geminiCalls.length ≤ 2 * (d + 1) := by
  intro d
  induction d with
  | zero =>
    intro fuel i accFb rp? hd _hok herr
    obtain ⟨f, rfl⟩ : ∃ f, fuel = f + 1 := ⟨fuel - 1, by omega⟩
    rcases herr with hg | ⟨gp, hg, hr⟩ | ⟨gp, rv, hg, hr, he⟩
    · rw [insertLoop_genErr P o f i accFb rp? err (by simpa using hg)]
      exact ⟨rfl, by by_cases ho : P.hasObserver <;> simp [ho], rfl,
        by simp⟩
    · rw [insertLoop_revErr P o f i accFb rp? gp err (by simpa using hg)
        (by simpa using hr)]
      exact ⟨rfl, by by_cases ho : P.hasObserver <;> simp [ho], rfl,
        by simp⟩
    · rw [insertLoop_examErr P o f i accFb rp? gp rv err (by simpa using hg)
        (by simpa using hr) (by simpa using he)]
      exact ⟨rfl, by by_cases ho : P.hasObserver <;> simp [ho], rfl,
        by simp⟩
  | succ d ihd =>
    intro fuel i accFb rp? hd hok herr
    obtain ⟨f, rfl⟩ : ∃ f, fuel = f + 1 := ⟨fuel - 1, by omega⟩
    obtain ⟨hg0, hr0, he0, hv0⟩ := hok 0 (Nat.succ_pos d)
    have hg0' : o.genPath i = .ok (g i) := by simpa using hg0
    have hr0' : o.reviewText i = .ok (r i) := by simpa using hr0
    have he0' : o.examineRaw i = .ok (e i) := by simpa using he0
    have hv0' : (parseExaminer (e i)).1 = false := by simpa [vd] using hv0
    rw [insertLoop_stepFail P o f i accFb rp? (g i) (r i) (e i) hg0' hr0' he0'
      hv0']
    have hok' : ∀ t, t < d → o.genPath (i + 1 + t) = .ok (g (i + 1 + t)) ∧
        o.reviewText (i + 1 + t) = .ok (r (i + 1 + t)) ∧
        o.examineRaw (i + 1 + t) = .ok (e (i + 1 + t)) ∧
        vd e (i + 1 + t) = false := by
      intro t ht
      have harr : i + 1 + t = i + (t + 1) := by omega
      rw [harr]
      exact hok (t + 1) (by omega)
    have herr' : errAt o err (i + 1 + d) := by
      have harr : i + 1 + d = i + (d + 1) := by omega
      rw [harr]
      exact herr
    obtain ⟨ih1, ih2, ih3, ih4⟩ := ihd f (i + 1)
      (accFb ++ [(parseExaminer (e i)).2]) (some (g i)) (by omega) hok' herr'
    refine ⟨?_, ?_, ?_, ?_⟩
    · dsimp only
      rw [ih1]
      rfl
    · dsimp only [Trace.append]
      rw [ih2]
      by_cases ho : P.hasObserver <;>
        simp [ho, attsFrom_succ, recAt, vd, fbOf, hv0']
    · dsimp only [Trace.append]
      rw [List.length_append, ih3]
      simp
      omega
    · dsimp only [Trace.append]
      simp only [List.length_append, List.length_cons, List.length_nil]
      omega

/-! ### The first compositor call is always made -/

lemma insertLoop_genCalls_head (P : InsertParams) (o : Oracle) (f i : Nat)
    (accFb : List String) (rp? : Option String) :
    ∃ rest, (insertLoop P o (f + 1) i accFb rp?).1.genCalls =
      insGenCall P accFb i :: rest := by
  cases hg : o.genPath i with
  | error err =>
    exact ⟨[], by rw [insertLoop_genErr P o f i accFb rp? err hg]⟩
  | ok gp =>
  cases hr : o.reviewText i with
  | error err =>
    exact ⟨[], by rw [insertLoop_revErr P o f i accFb rp? gp err hg hr]⟩
  | ok rv =>
  cases he : o.examineRaw i with
  | error err =>
    exact ⟨[], by rw [insertLoop_examErr P o f i accFb rp? gp rv err hg hr he]⟩
  | ok ex =>
  by_cases hv : (parseExaminer ex).1 = true
  · exact ⟨[], by rw [insertLoop_stepPass P o f i accFb rp? gp rv ex hg hr he hv]⟩
  · have hv' : (parseExaminer ex).1 = false := by simpa using hv
    exact ⟨(insertLoop P o f (i + 1) (accFb ++ [(parseExaminer ex).2])
        (some gp)).1.genCalls,
      by rw [insertLoop_stepFail P o f i accFb rp? gp rv ex hg hr he hv']; rfl⟩

lemma removalLoop_genCalls_head (P : RemovalParams) (o : Oracle) (f i : Nat)
    (accFb : List String) (rp? : Option String) :
    ∃ rest, (removalLoop P o (f + 1) i accFb rp?).1.genCalls =
      remGenCall P accFb i :: rest := by
  cases hg : o.genPath i with
  | error err =>
    exact ⟨[], by rw [removalLoop_genErr P o f i accFb rp? err hg]⟩
  | ok gp =>
  cases hr : o.reviewText i with
  | error err =>
    exact ⟨[], by rw [removalLoop_revErr P o f i accFb rp? gp err hg hr]⟩
  | ok rv =>
  cases he : o.examineRaw i with
  | error err =>
    exact ⟨[], by rw [removalLoop_examErr P o f i accFb rp? gp rv err hg hr he]⟩
  | ok ex =>
  by_cases hv : (parseExaminer ex).1 = true
  · exact ⟨[], by rw [removalLoop_stepPass P o f i accFb rp? gp rv ex hg hr he hv]⟩
  · have hv' : (parseExaminer ex).1 = false := by simpa using hv
    exact ⟨(removalLoop P o f (i + 1) (accFb ++ [(parseExaminer ex).2])
        (some gp)).1.genCalls,
      by rw [removalLoop_stepFail P o f i accFb rp? gp rv ex hg hr he hv']; rfl⟩

/-! ### Structure of `findFeedback` -/

lemma findFeedback_first (pre : List (List Char)) (line : List Char)
    (rest : List (List Char))
    (hpre : ∀ l ∈ pre,
      ("FEEDBACK:".data).isPrefixOf (l.map Char.toUpper) = false)
    (hline : ("FEEDBACK:".data).isPrefixOf (line.map Char.toUpper) = true) :
    findFeedback (pre ++ line :: rest) = strip ⟨afterFirstColon line⟩ := by
  induction pre with
  | nil => simp [findFeedback, hline]
  | cons a t ih =>
    have ha := hpre a (List.mem_cons_self a t)
    simp only [List.cons_append, findFeedback, ha, Bool.false_eq_true,
      if_false]
    exact ih fun l hl => hpre l (List.mem_cons_of_mem a hl)

lemma findFeedback_none (ls : List (List Char))
    (h : ∀ l ∈ ls,
      ("FEEDBACK:".data).isPrefixOf (l.map Char.toUpper) = false) :
    findFeedback ls = "" := by
  induction ls with
  | nil => rfl
  | cons a t ih =>
    simp only [findFeedback, h a (List.mem_cons_self a t), Bool.false_eq_true,
      if_false]
    exact ih fun l hl => h l (List.mem_cons_of_mem a hl)

/-! ## Claim theorems -/

/-- **C3**: for every raw Examiner response, `passed` is true iff the
uppercased response contains `"VERDICT: PASS"` anywhere; `feedback` comes
from the first line whose uppercased form starts with `"FEEDBACK:"`, taking
everything after that line's first colon, trimmed, and is `""` when no such
line exists.  `"VERDICT: PASS\nFEEDBACK: looks great"` parses to
`(true, "looks great")`, `"Verdict: fail\nFeedback: chair too small, scale up
by 20%"` parses to `(false, "chair too small, scale up by 20%")`, a response
with no FEEDBACK line yields feedback `""`, and an unrecognizable verdict
never raises: it yields `passed = false`. -/
theorem claim3_examiner_response_parsing :
    (∀ raw, (parseExaminer raw).1 = true ↔
      containsSub ("VERDICT: PASS".data) (upper raw).data = true) ∧
    (∀ raw pre line rest,
      splitLines raw = pre ++ line :: rest →
      (∀ l ∈ pre,
        ("FEEDBACK:".data).isPrefixOf (l.map Char.toUpper) = false) →
      ("FEEDBACK:".data).isPrefixOf (line.map Char.toUpper) = true →
      (parseExaminer raw).2 = strip ⟨afterFirstColon line⟩) ∧
    (∀ raw, (∀ l ∈ splitLines raw,
        ("FEEDBACK:".data).isPrefixOf (l.map Char.toUpper) = false) →
      (parseExaminer raw).2 = "") ∧
    parseExaminer "VERDICT: PASS\nFEEDBACK: looks great" =
      (true, "looks great") ∧
    parseExaminer "Verdict: fail\nFeedback: chair too small, scale up by 20%" =
      (false, "chair too small, scale up by 20%") ∧
    parseExaminer "VERDICT: PASS" = (true, "") ∧
    parseExaminer "Verdict: fail" = (false, "") ∧
    parseExaminer "no recognizable verdict here" = (false, "") := by
  refine ⟨fun raw => Iff.rfl, ?_, ?_, by decide, by decide, by decide,
    by decide, by decide⟩
  · intro raw pre line rest hsplit hpre hline
    show findFeedback (splitLines raw) = _
    rw [hsplit]
    exact findFeedback_first pre line rest hpre hline
  · intro raw h
    exact findFeedback_none (splitLines raw) h

/-- Witness for C3: the general feedback-extraction clause applied to the
concrete response `"VERDICT: FAIL\nFEEDBACK: nudge left"`. -/
theorem claim3_examiner_response_parsing_witness :
    splitLines "VERDICT: FAIL\nFEEDBACK: nudge left" =
      ["VERDICT: FAIL".data] ++ "FEEDBACK: nudge left".data :: [] ∧
    (∀ l ∈ ["VERDICT: FAIL".data],
      ("FEEDBACK:".data).isPrefixOf (l.map Char.toUpper) = false) ∧
    ("FEEDBACK:".data).isPrefixOf
      (("FEEDBACK: nudge left".data).map Char.toUpper) = true ∧
    (parseExaminer "VERDICT: FAIL\nFEEDBACK: nudge left").2 =
      strip ⟨afterFirstColon ("FEEDBACK: nudge left".data)⟩ :=
  ⟨by decide, by decide, by decide,
   claim3_examiner_response_parsing.2.1 "VERDICT: FAIL\nFEEDBACK: nudge left"
     ["VERDICT: FAIL".data] ("FEEDBACK: nudge left".data) [] (by decide)
     (by decide) (by decide)⟩

lemma length_flatten_pairs {α β : Type} (l : List α) (f h : α → β) :
    ((l.map (fun j => [f j, h j])).flatten).length = 2 * l.length := by
  induction l with
  | nil => rfl
  | cons a t ih =>
    simp only [List.map_cons, List.flatten_cons, List.length_append,
      List.length_cons, List.length_nil, ih]
    omega

/-- **C1**: for every `max_attempts = N ≥ 1` and every sequence of Examiner
verdicts, if the Examiner first passes on attempt `k ≤ N`, then
`generate_with_verification` (and `generate_removal_with_verification`)
performs exactly `k` generate/review/examine cycles and returns
`passed = true` with `final_image_path` equal to attempt `k`'s image path;
if the Examiner fails on every attempt `1..N`, the loop performs exactly `N`
cycles and returns `passed = false` with `final_image_path` equal to attempt
`N`'s image path. -/
theorem claim1_retry_loop_termination (P : InsertParams) (Q : RemovalParams)
    (g r e : Nat → String) (N : Nat) (hN : 1 ≤ N) :
    (∀ k, 1 ≤ k → k ≤ N →
      (∀ j, j < k → 1 ≤ j → vd e j = false) → vd e k = true →
      (∃ tr v, generate_with_verification P (okOracle g r e) N = (tr, .ok v) ∧
        tr.genCalls.length = k ∧ tr.geminiCalls.length = 2 * k ∧
        v.passed = true ∧ v.attempts.length = k ∧
        v.final_image_path = g k) ∧
      (∃ tr v,
        generate_removal_with_verification Q (okOracle g r e) N =
          (tr, .ok v) ∧
        tr.genCalls.length = k ∧ tr.geminiCalls.length = 2 * k ∧
        v.passed = true ∧ v.attempts.length = k ∧
        v.final_image_path = g k)) ∧
    ((∀ j, j ≤ N → 1 ≤ j → vd e j = false) →
      (∃ tr v, generate_with_verification P (okOracle g r e) N = (tr, .ok v) ∧
        tr.genCalls.length = N ∧ tr.geminiCalls.length = 2 * N ∧
        v.passed = false ∧ v.attempts.length = N ∧
        v.final_image_path = g N) ∧
      (∃ tr v,
        generate_removal_with_verification Q (okOracle g r e) N =
          (tr, .ok v) ∧
        tr.genCalls.length = N ∧ tr.geminiCalls.length = 2 * N ∧
        v.passed = false ∧ v.attempts.length = N ∧
        v.final_image_path = g N)) := by
  have harith : ∀ k : Nat, 1 ≤ k → 1 + k - 1 = k := by omega
  constructor
  · intro k hk1 hkN hfail hpass
    have hd : ∀ t, t < k - 1 → vd e (1 + t) = false := fun t ht =>
      hfail (1 + t) (by omega) (by omega)
    have hp : vd e (1 + (k - 1)) = true := by
      have h1 : 1 + (k - 1) = k := by omega
      rw [h1]
      exact hpass
    have hm : stopCount e 1 N = k := by
      have := stopCount_first_pass e (k - 1) N 1 (by omega) hd hp
      omega
    constructor
    · rw [generate_with_verification,
        insertLoop_master P g r e N 1 [] none hN, hm]
      refine ⟨_, _, rfl, by simp, ?_, ?_, by simp [attsFrom], ?_⟩
      · rw [length_flatten_pairs]
        simp
      · rw [harith k hk1]
        exact hpass
      · rw [harith k hk1]
    · rw [generate_removal_with_verification,
        removalLoop_master Q g r e N 1 [] none hN, hm]
      refine ⟨_, _, rfl, by simp, ?_, ?_, by simp [attsFrom], ?_⟩
      · rw [length_flatten_pairs]
        simp
      · rw [harith k hk1]
        exact hpass
      · rw [harith k hk1]
  · intro hfail
    have hd : ∀ t, t < N → vd e (1 + t) = false := fun t ht =>
      hfail (1 + t) (by omega) (by omega)
    have hm : stopCount e 1 N = N := stopCount_all_fail e N 1 hd
    have hvN : vd e N = false := hfail N (Nat.le_refl N) hN
    constructor
    · rw [generate_with_verification,
        insertLoop_master P g r e N 1 [] none hN, hm]
      refine ⟨_, _, rfl, by simp, ?_, ?_, by simp [attsFrom], ?_⟩
      · rw [length_flatten_pairs]
        simp
      · rw [harith N hN]
        exact hvN
      · rw [harith N hN]
    · rw [generate_removal_with_verification,
        removalLoop_master Q g r e N 1 [] none hN, hm]
      refine ⟨_, _, rfl, by simp, ?_, ?_, by simp [attsFrom], ?_⟩
      · rw [length_flatten_pairs]
        simp
      · rw [harith N hN]
        exact hvN
      · rw [harith N hN]

/-! ### Concrete instances used by the witnesses -/

/-- Concrete compositor paths for witnesses. -/
def gW : Nat → String := fun i => "out" ++ toString i

/-- Concrete reviewer texts for witnesses. -/
def rW : Nat → String := fun _ => "review text"

/-- Concrete examiner responses: fail on attempt 1, pass from attempt 2 on. -/
def eW : Nat → String := fun i =>
  if i = 1 then "VERDICT: FAIL\nFEEDBACK: move it left" else
    "VERDICT: PASS\nFEEDBACK: ok"

/-- Concrete examiner responses: fail on every attempt. -/
def eFailW : Nat → String := fun _ => "VERDICT: FAIL\nFEEDBACK: move it left"

/-- Concrete insertion parameters for witnesses. -/
def PW : InsertParams :=
  ⟨"in/room.jpg", "in/chair.png", "place the chair by the window", "", true⟩

/-- Concrete removal parameters for witnesses. -/
def QW : RemovalParams := ⟨"in/room.jpg", "the lamp on the table", "", true⟩

/-- Witness for C1: `N = 3`, Examiner fails attempt 1 and passes attempt 2;
the insertion run performs exactly 2 cycles and passes. -/
theorem claim1_retry_loop_termination_witness :
    (1 : Nat) ≤ 3 ∧ (1 : Nat) ≤ 2 ∧ (2 : Nat) ≤ 3 ∧
    (∀ j, j < 2 → 1 ≤ j → vd eW j = false) ∧ vd eW 2 = true ∧
    (∃ tr v, generate_with_verification PW (okOracle gW rW eW) 3 =
        (tr, .ok v) ∧
      tr.genCalls.length = 2 ∧ tr.geminiCalls.length = 2 * 2 ∧
      v.passed = true ∧ v.attempts.length = 2 ∧
      v.final_image_path = gW 2) :=
  ⟨by decide, by decide, by decide, by decide, by decide,
   ((claim1_retry_loop_termination PW QW gW rW eW 3 (by decide)).1 2
     (by decide) (by decide) (by decide) (by decide)).1⟩

lemma stopCount_ge (e : Nat → String) :
    ∀ d fuel i, d < fuel → (∀ t, t < d → vd e (i + t) = false) →
      d + 1 ≤ stopCount e i fuel
  | 0, fuel, i, hd, _ => by
    obtain ⟨f, rfl⟩ : ∃ f, fuel = f + 1 := ⟨fuel - 1, by omega⟩
    exact stopCount_pos e i f
  | d + 1, fuel, i, hd, hf => by
    obtain ⟨f, rfl⟩ : ∃ f, fuel = f + 1 := ⟨fuel - 1, by omega⟩
    have h0 : vd e i = false := by simpa using hf 0 (Nat.succ_pos d)
    have hrest : ∀ t, t < d → vd e (i + 1 + t) = false := by
      intro t ht
      have harr : i + 1 + t = i + (t + 1) := by omega
      rw [harr]
      exact hf (t + 1) (by omega)
    have := stopCount_ge e d f (i + 1) (by omega) hrest
    simp only [stopCount, h0, if_false, Bool.false_eq_true]
    omega

/-- **C2**: in a run where attempts `1..i-1` all failed, the generation
prompt assembled for attempt `i` is, joined in order by `". "`: the original
description verbatim, the stripped additional-instructions text if
non-empty, and (for `i > 1` only) the string
`"IMPORTANT corrections from previous attempts: "` followed by the feedback
strings of attempts `1..i-1` in chronological order joined by single spaces
— every prior failed attempt's feedback appears (empty ones included), not
just the most recent; for attempt 1 no corrections block appears. -/
theorem claim2_cumulative_feedback_prompt (P : InsertParams)
    (g r e : Nat → String) (N i : Nat) (hi1 : 1 ≤ i) (hiN : i ≤ N)
    (hfail : ∀ j, j < i → 1 ≤ j → vd e j = false) :
    (generate_with_verification P (okOracle g r e) N).1.genCalls[i - 1]? =
      some ⟨P.room_image_path, some P.item_image_path,
        joinWith ". " ([P.placement_description]
          ++ (if strip P.additional_instructions ≠ ""
              then [strip P.additional_instructions] else [])
          ++ (if i = 1 then [] else
            ["IMPORTANT corrections from previous attempts: "
              ++ joinWith " " ((List.range' 1 (i - 1)).map (fbOf e))])),
        insertAttemptOutput P.room_image_path P.item_image_path i⟩ := by
  have hN : 1 ≤ N := le_trans hi1 hiN
  rw [generate_with_verification, insertLoop_master P g r e N 1 [] none hN]
  have hd : ∀ t, t < i - 1 → vd e (1 + t) = false := fun t ht =>
    hfail (1 + t) (by omega) (by omega)
  have hmge : i - 1 + 1 ≤ stopCount e 1 N := stopCount_ge e (i - 1) N 1
    (by omega) hd
  have him : i - 1 < stopCount e 1 N := by omega
  show (List.map _ (List.range' 1 (stopCount e 1 N)))[i - 1]? = _
  rw [List.getElem?_map, List.getElem?_range' 1 1 him]
  have h1 : 1 + 1 * (i - 1) = i := by omega
  rw [Option.map_some', h1]
  by_cases hI : i = 1
  · subst hI
    simp [insGenCall, buildFullPrompt, fbsFrom]
  · have hne : fbsFrom e 1 (i - 1) ≠ [] := by
      intro hcon
      have hlen := congrArg List.length hcon
      simp [fbsFrom] at hlen
      omega
    have hiz : ¬(i - 1 = 0) := by omega
    simp only [insGenCall, buildFullPrompt, List.nil_append, fbsFrom]
    simp [hne, hI, hiz]

/-- Witness for C2: attempt 2 of a two-attempt run whose first attempt
failed; its prompt carries the corrections block with attempt 1's feedback. -/
theorem claim2_cumulative_feedback_prompt_witness :
    (1 : Nat) ≤ 2 ∧ (2 : Nat) ≤ 2 ∧
    (∀ j, j < 2 → 1 ≤ j → vd eFailW j = false) ∧
    (generate_with_verification PW (okOracle gW rW eFailW) 2).1.genCalls[2 - 1]? =
      some ⟨PW.room_image_path, some PW.item_image_path,
        joinWith ". " ([PW.placement_description]
          ++ (if strip PW.additional_instructions ≠ ""
              then [strip PW.additional_instructions] else [])
          ++ (if 2 = 1 then [] else
            ["IMPORTANT corrections from previous attempts: "
              ++ joinWith " " ((List.range' 1 (2 - 1)).map (fbOf eFailW))])),
        insertAttemptOutput PW.room_image_path PW.item_image_path 2⟩ :=
  ⟨by decide, by decide, by decide,
   claim2_cumulative_feedback_prompt PW gW rW eFailW 2 2 (by decide)
     (by decide) (by decide)⟩

/-- Counterexample to C4 as stated: with an empty placement description the
call does not fail with any error — the loop runs, the Compositor is invoked
(two compositor calls recorded), and the run returns normally; and with
`max_attempts < 1` the failure is the unbound-local error on `result_path`,
not an `InvalidInput` error before any external call. -/
theorem claim4_counterexample :
    (generate_with_verification ⟨"in/room.jpg", "in/chair.png", "", "", false⟩
      (okOracle gW rW eW) 3).2 =
      .ok ⟨"out2", true,
        [⟨1, "out1", "review text", false, "move it left"⟩,
         ⟨2, "out2", "review text", true, "ok"⟩]⟩ ∧
    (generate_with_verification ⟨"in/room.jpg", "in/chair.png", "", "", false⟩
      (okOracle gW rW eW) 3).1.genCalls.length = 2 ∧
    (generate_with_verification PW (okOracle gW rW eW) 0).2 =
      .error "UnboundLocalError: result_path" := by
  refine ⟨by decide, by decide, by decide⟩

/-- **C4 (amended)**: neither entry point validates its inputs.  An empty
description is accepted and the run proceeds to external calls (for
`max_attempts ≥ 1` the first compositor call is always made); for
`max_attempts < 1` the loop body never runs, no external call is made, and
the call fails with the unbound-local error on `result_path` rather than an
`InvalidInput` error (no such validation exists in the code). -/
theorem claim4_no_input_validation (P : InsertParams) (Q : RemovalParams)
    (o : Oracle) (N : Nat) (hN : 1 ≤ N)
    (_hP : P.placement_description = "")
    (_hQ : Q.location_description = "") :
    (∃ rest, (generate_with_verification P o N).1.genCalls =
      insGenCall P [] 1 :: rest) ∧
    (∃ rest, (generate_removal_with_verification Q o N).1.genCalls =
      remGenCall Q [] 1 :: rest) ∧
    generate_with_verification P o 0 =
      (Trace.empty, .error "UnboundLocalError: result_path") ∧
    generate_removal_with_verification Q o 0 =
      (Trace.empty, .error "UnboundLocalError: result_path") := by
  obtain ⟨f, rfl⟩ : ∃ f, N = f + 1 := ⟨N - 1, by omega⟩
  exact ⟨insertLoop_genCalls_head P o f 1 [] none,
    removalLoop_genCalls_head Q o f 1 [] none,
    insertLoop_zero_none P o 1 [], removalLoop_zero_none Q o 1 []⟩

/-- Witness for the amended C4, at empty descriptions and `N = 1`. -/
theorem claim4_no_input_validation_witness :
    (1 : Nat) ≤ 1 ∧
    (⟨"in/room.jpg", "in/chair.png", "", "", false⟩ :
      InsertParams).placement_description = "" ∧
    (⟨"in/room.jpg", "", "", false⟩ : RemovalParams).location_description =
      "" ∧
    (∃ rest,
      (generate_with_verification
        ⟨"in/room.jpg", "in/chair.png", "", "", false⟩
        (okOracle gW rW eW) 1).1.genCalls =
      insGenCall ⟨"in/room.jpg", "in/chair.png", "", "", false⟩ [] 1 :: rest) :=
  ⟨by decide, rfl, rfl,
   (claim4_no_input_validation ⟨"in/room.jpg", "in/chair.png", "", "", false⟩
     ⟨"in/room.jpg", "", "", false⟩ (okOracle gW rW eW) 1 (by decide) rfl
     rfl).1⟩

/-- Counterexample to C5 as stated: a passing Examiner response carries the
response's FEEDBACK text, so the appended attempt record has `passed = true`
together with the non-empty feedback `"looks great"`. -/
theorem claim5_counterexample :
    (generate_with_verification PW
      (okOracle gW rW (fun _ => "VERDICT: PASS\nFEEDBACK: looks great"))
      3).2 =
      .ok ⟨"out1", true,
        [⟨1, "out1", "review text", true, "looks great"⟩]⟩ ∧
    ("looks great" : String) ≠ "" := by
  refine ⟨by decide, by decide⟩

/-- **C5 (amended)**: an attempt record's `passed` and `feedback` fields are
exactly the parse of that attempt's raw Examiner response — `feedback` is
not cleared when `passed` is true; it is empty only when the response's
FEEDBACK line is absent or empty. -/
theorem claim5_feedback_field (P : InsertParams) (g r e : Nat → String)
    (N : Nat) (tr : Trace) (v : VerifiedPlacementResult)
    (h : generate_with_verification P (okOracle g r e) N = (tr, .ok v)) :
    ∀ a ∈ v.attempts, a.passed = (parseExaminer (e a.attempt)).1 ∧
      a.feedback = (parseExaminer (e a.attempt)).2 ∧
      a.review = r a.attempt ∧ a.image_path = g a.attempt := by
  rcases Nat.eq_zero_or_pos N with hz | hpos
  · subst hz
    rw [generate_with_verification, insertLoop_zero_none] at h
    simp at h
  · rw [generate_with_verification,
      insertLoop_master P g r e N 1 [] none hpos] at h
    simp only [Prod.mk.injEq, Except.ok.injEq] at h
    obtain ⟨-, rfl⟩ := h
    intro a ha
    simp only [attsFrom, List.mem_map] at ha
    obtain ⟨j, _hj, rfl⟩ := ha
    simp [recAt, vd, fbOf]

/-- Witness for the amended C5: the passing record of a concrete two-attempt
run carries the parse of its own Examiner response (feedback kept on pass). -/
theorem claim5_feedback_field_witness :
    (⟨2, "out2", "review text", true, "ok"⟩ : PlacementAttempt).passed =
      (parseExaminer (eW 2)).1 ∧
    (⟨2, "out2", "review text", true, "ok"⟩ : PlacementAttempt).feedback =
      (parseExaminer (eW 2)).2 ∧
    (⟨2, "out2", "review text", true, "ok"⟩ : PlacementAttempt).review =
      rW 2 ∧
    (⟨2, "out2", "review text", true, "ok"⟩ : PlacementAttempt).image_path =
      gW 2 := by
  have h2 : (generate_with_verification PW (okOracle gW rW eW) 3).2 =
      .ok ⟨"out2", true,
        [⟨1, "out1", "review text", false, "move it left"⟩,
         ⟨2, "out2", "review text", true, "ok"⟩]⟩ := by decide
  have h : generate_with_verification PW (okOracle gW rW eW) 3 =
      ((generate_with_verification PW (okOracle gW rW eW) 3).1,
       .ok ⟨"out2", true,
         [⟨1, "out1", "review text", false, "move it left"⟩,
          ⟨2, "out2", "review text", true, "ok"⟩]⟩) := by
    rw [← h2]
  exact claim5_feedback_field PW gW rW eW 3 _ _ h
    ⟨2, "out2", "review text", true, "ok"⟩ (by decide)

/-- **C6**: for every run with `max_attempts ≥ 1` that returns normally, the
attempts list is non-empty, its sequence numbers are `1..N` in insertion
order with `N ≤ max_attempts`, and `final_image_path` equals the image path
of the last history entry — on both the pass return and the exhaustion
return, for both flavors. -/
theorem claim6_history_invariants (P : InsertParams) (Q : RemovalParams)
    (o : Oracle) (N : Nat) (_hN : 1 ≤ N) :
    (∀ tr v, generate_with_verification P o N = (tr, .ok v) →
      v.attempts ≠ [] ∧
      v.attempts.map (fun a => a.attempt) =
        List.range' 1 v.attempts.length ∧
      v.attempts.length ≤ N ∧
      ∃ a, v.attempts.getLast? = some a ∧
        v.final_image_path = a.image_path) ∧
    (∀ tr v, generate_removal_with_verification Q o N = (tr, .ok v) →
      v.attempts ≠ [] ∧
      v.attempts.map (fun a => a.attempt) =
        List.range' 1 v.attempts.length ∧
      v.attempts.length ≤ N ∧
      ∃ a, v.attempts.getLast? = some a ∧
        v.final_image_path = a.image_path) := by
  constructor
  · intro tr v h
    obtain ⟨hmap, hlen, _hnil, hlast, hne, _hobs⟩ :=
      insertLoop_ok_inv P o N 1 [] none tr v h
    have hnonempty : v.attempts ≠ [] := hne rfl
    have hsome : v.attempts.getLast?.isSome := by
      rw [List.getLast?_isSome]
      exact hnonempty
    obtain ⟨a, ha⟩ := Option.isSome_iff_exists.mp hsome
    exact ⟨hnonempty, hmap, hlen, a, ha, hlast a ha⟩
  · intro tr v h
    obtain ⟨hmap, hlen, _hnil, hlast, hne, _hobs⟩ :=
      removalLoop_ok_inv Q o N 1 [] none tr v h
    have hnonempty : v.attempts ≠ [] := hne rfl
    have hsome : v.attempts.getLast?.isSome := by
      rw [List.getLast?_isSome]
      exact hnonempty
    obtain ⟨a, ha⟩ := Option.isSome_iff_exists.mp hsome
    exact ⟨hnonempty, hmap, hlen, a, ha, hlast a ha⟩

/-- Witness for C6: a concrete exhausted two-attempt insertion run. -/
theorem claim6_history_invariants_witness :
    (1 : Nat) ≤ 2 ∧
    (([⟨1, "out1", "review text", false, "move it left"⟩,
       ⟨2, "out2", "review text", false, "move it left"⟩] :
        List PlacementAttempt) ≠ [] ∧
      ([⟨1, "out1", "review text", false, "move it left"⟩,
        ⟨2, "out2", "review text", false, "move it left"⟩] :
          List PlacementAttempt).map (fun a => a.attempt) =
        List.range' 1 ([⟨1, "out1", "review text", false, "move it left"⟩,
          ⟨2, "out2", "review text", false, "move it left"⟩] :
            List PlacementAttempt).length ∧
      ([⟨1, "out1", "review text", false, "move it left"⟩,
        ⟨2, "out2", "review text", false, "move it left"⟩] :
          List PlacementAttempt).length ≤ 2 ∧
      ∃ a, ([⟨1, "out1", "review text", false, "move it left"⟩,
        ⟨2, "out2", "review text", false, "move it left"⟩] :
          List PlacementAttempt).getLast? = some a ∧
        ("out2" : String) = a.image_path) := by
  have h2 : (generate_with_verification PW (okOracle gW rW eFailW) 2).2 =
      .ok ⟨"out2", false,
        [⟨1, "out1", "review text", false, "move it left"⟩,
         ⟨2, "out2", "review text", false, "move it left"⟩]⟩ := by decide
  have h : generate_with_verification PW (okOracle gW rW eFailW) 2 =
      ((generate_with_verification PW (okOracle gW rW eFailW) 2).1,
       .ok ⟨"out2", false,
         [⟨1, "out1", "review text", false, "move it left"⟩,
          ⟨2, "out2", "review text", false, "move it left"⟩]⟩) := by
    rw [← h2]
  exact ⟨by decide,
    (claim6_history_invariants PW QW (okOracle gW rW eFailW) 2
      (by decide)).1 _ _ h⟩

/-- A concrete oracle whose compositor call raises on every attempt. -/
def oErrW : Oracle :=
  ⟨fun _ => .error "Gemini returned no text.", fun _ => .ok "review text",
   fun _ => .ok "VERDICT: PASS\nFEEDBACK: ok"⟩

/-- **C7**: if attempts `1..i-1` completed with FAIL verdicts and one of the
three external calls of attempt `i` raises, the run aborts with exactly that
error: no record for attempt `i` reaches the observer, the observer saw
exactly the completed attempts `1..i-1`, no further attempt is started
(exactly `i` compositor calls), and the failure does not consume the retry
budget as a FAIL verdict — the result is the propagated error, not a
`passed = false` result. -/
theorem claim7_upstream_error_aborts (P : InsertParams) (o : Oracle)
    (g r e : Nat → String) (err : String) (N i : Nat) (hi : 1 ≤ i)
    (hiN : i ≤ N)
    (hok : ∀ j, j < i → 1 ≤ j → o.genPath j = .ok (g j) ∧
      o.reviewText j = .ok (r j) ∧ o.examineRaw j = .ok (e j) ∧
      vd e j = false)
    (herr : errAt o err i) :
    (generate_with_verification P o N).2 = .error err ∧
    (generate_with_verification P o N).1.observerCalls =
      (if P.hasObserver then attsFrom g r e 1 (i - 1) else []) ∧
    (generate_with_verification P o N).1.genCalls.length = i ∧
    (generate_with_verification P o N).1.geminiCalls.length ≤ 2 * i := by
  have hok' : ∀ t, t < i - 1 → o.genPath (1 + t) = .ok (g (1 + t)) ∧
      o.reviewText (1 + t) = .ok (r (1 + t)) ∧
      o.examineRaw (1 + t) = .ok (e (1 + t)) ∧ vd e (1 + t) = false :=
    fun t ht => hok (1 + t) (by omega) (by omega)
  have herr' : errAt o err (1 + (i - 1)) := by
    have harr : 1 + (i - 1) = i := by omega
    rw [harr]
    exact herr
  obtain ⟨h1, h2, h3, h4⟩ := insertLoop_err P o g r e err (i - 1) N 1 [] none
    (by omega) hok' herr'
  have harr : i - 1 + 1 = i := by omega
  rw [harr] at h3 h4
  exact ⟨h1, h2, h3, h4⟩

/-- Witness for C7: the compositor raises on attempt 1; the error propagates
and the observer is never invoked. -/
theorem claim7_upstream_error_aborts_witness :
    (1 : Nat) ≤ 1 ∧ (1 : Nat) ≤ 3 ∧
    (∀ j, j < 1 → 1 ≤ j → oErrW.genPath j = .ok (gW j) ∧
      oErrW.reviewText j = .ok (rW j) ∧ oErrW.examineRaw j = .ok (eW j) ∧
      vd eW j = false) ∧
    errAt oErrW "Gemini returned no text." 1 ∧
    ((generate_with_verification PW oErrW 3).2 =
      .error "Gemini returned no text." ∧
    (generate_with_verification PW oErrW 3).1.observerCalls =
      (if PW.hasObserver then attsFrom gW rW eW 1 (1 - 1) else []) ∧
    (generate_with_verification PW oErrW 3).1.genCalls.length = 1 ∧
    (generate_with_verification PW oErrW 3).1.geminiCalls.length ≤ 2 * 1) :=
  ⟨by decide, by decide, by decide, Or.inl rfl,
   claim7_upstream_error_aborts PW oErrW gW rW eW
     "Gemini returned no text." 3 1 (by decide) (by decide) (by decide)
     (Or.inl rfl)⟩

/-- **C8**: with an observer supplied, the callback is invoked exactly once
per completed attempt, in attempt order, with the fully populated record
just appended to history — on a normal return the observer log is exactly
the attempts history; without an observer no callback fires and the result
and the external-call trace are bit-for-bit identical. -/
theorem claim8_observer_contract (P : InsertParams) (Q : RemovalParams)
    (o : Oracle) (N : Nat) :
    (∀ tr v, P.hasObserver = true →
      generate_with_verification P o N = (tr, .ok v) →
      tr.observerCalls = v.attempts) ∧
    (∀ tr v, Q.hasObserver = true →
      generate_removal_with_verification Q o N = (tr, .ok v) →
      tr.observerCalls = v.attempts) ∧
    (generate_with_verification { P with hasObserver := false } o N).2 =
      (generate_with_verification { P with hasObserver := true } o N).2 ∧
    (generate_with_verification { P with hasObserver := false } o
        N).1.genCalls =
      (generate_with_verification { P with hasObserver := true } o
        N).1.genCalls ∧
    (generate_with_verification { P with hasObserver := false } o
        N).1.geminiCalls =
      (generate_with_verification { P with hasObserver := true } o
        N).1.geminiCalls ∧
    (generate_with_verification { P with hasObserver := false } o
        N).1.observerCalls = [] ∧
    (generate_removal_with_verification { Q with hasObserver := false } o
        N).2 =
      (generate_removal_with_verification { Q with hasObserver := true } o
        N).2 ∧
    (generate_removal_with_verification { Q with hasObserver := false } o
        N).1.observerCalls = [] := by
  refine ⟨?_, ?_, ?_, ?_, ?_, ?_, ?_, ?_⟩
  · intro tr v ho h
    obtain ⟨-, -, -, -, -, hobs⟩ := insertLoop_ok_inv P o N 1 [] none tr v h
    rw [hobs, if_pos ho]
  · intro tr v ho h
    obtain ⟨-, -, -, -, -, hobs⟩ := removalLoop_ok_inv Q o N 1 [] none tr v h
    rw [hobs, if_pos ho]
  · exact ((insertLoop_observer_blind P o false N 1 [] none).1).trans
      ((insertLoop_observer_blind P o true N 1 [] none).1).symm
  · exact ((insertLoop_observer_blind P o false N 1 [] none).2.1).trans
      ((insertLoop_observer_blind P o true N 1 [] none).2.1).symm
  · exact ((insertLoop_observer_blind P o false N 1 [] none).2.2).trans
      ((insertLoop_observer_blind P o true N 1 [] none).2.2).symm
  · exact insertLoop_no_observer { P with hasObserver := false } o rfl N 1
      [] none
  · exact ((removalLoop_observer_blind Q o false N 1 [] none).1).trans
      ((removalLoop_observer_blind Q o true N 1 [] none).1).symm
  · exact removalLoop_no_observer { Q with hasObserver := false } o rfl N 1
      [] none

/-- Witness for C8: on a concrete two-attempt run with the observer
supplied, the observer log equals the attempts history. -/
theorem claim8_observer_contract_witness :
    PW.hasObserver = true ∧
    (generate_with_verification PW (okOracle gW rW eW) 3).1.observerCalls =
      ([⟨1, "out1", "review text", false, "move it left"⟩,
        ⟨2, "out2", "review text", true, "ok"⟩] :
        List PlacementAttempt) := by
  have h2 : (generate_with_verification PW (okOracle gW rW eW) 3).2 =
      .ok ⟨"out2", true,
        [⟨1, "out1", "review text", false, "move it left"⟩,
         ⟨2, "out2", "review text", true, "ok"⟩]⟩ := by decide
  have h : generate_with_verification PW (okOracle gW rW eW) 3 =
      ((generate_with_verification PW (okOracle gW rW eW) 3).1,
       .ok ⟨"out2", true,
         [⟨1, "out1", "review text", false, "move it left"⟩,
          ⟨2, "out2", "review text", true, "ok"⟩]⟩) := by
    rw [← h2]
  exact ⟨rfl,
    (claim8_observer_contract PW QW (okOracle gW rW eW) 3).1 _ _ rfl h⟩

/-- **C9**: every Reviewer and Examiner Gemini call of an insertion run
carries exactly three images — original room, composite, and the item image
as a distinct input — while every such call of a removal run carries exactly
two images (original room and edited image) and never an item image; the two
flavors never cross-contaminate. -/
theorem claim9_image_arity (P : InsertParams) (Q : RemovalParams)
    (o : Oracle) (N : Nat) :
    (∀ cts ∈ (generate_with_verification P o N).1.geminiCalls,
      ∃ rp, imagesOf cts = [P.room_image_path, rp, P.item_image_path]) ∧
    (∀ cts ∈ (generate_removal_with_verification Q o N).1.geminiCalls,
      ∃ rp, imagesOf cts = [Q.room_image_path, rp]) :=
  ⟨fun cts h => insertLoop_images P o N 1 [] none cts h,
   fun cts h => removalLoop_images Q o N 1 [] none cts h⟩

/-- Witness for C9: the reviewer call of attempt 1 of a concrete insertion
run is among the Gemini calls and carries the three images. -/
theorem claim9_image_arity_witness :
    insReviewCts PW "out1" ∈
      (generate_with_verification PW (okOracle gW rW eW) 1).1.geminiCalls ∧
    ∃ rp, imagesOf (insReviewCts PW "out1") =
      [PW.room_image_path, rp, PW.item_image_path] :=
  ⟨by decide,
   (claim9_image_arity PW QW (okOracle gW rW eW) 1).1 (insReviewCts PW "out1")
     (by decide)⟩

/-- **C10**: with `max_attempts < 1` the loop body runs zero times and the
exhaustion return reads the never-assigned local `result_path`, so the call
fails with the unbound-local error (and no `VerifiedPlacementResult` with an
empty attempts list is ever returned); with `max_attempts ≥ 1`, whenever the
exhaustion return is taken (`passed = false`), `result_path` is defined and
equals the last attempt's image path. -/
theorem claim10_result_path_binding (P : InsertParams) (Q : RemovalParams)
    (o : Oracle) (N : Nat) (_hN : 1 ≤ N) :
    generate_with_verification P o 0 =
      (Trace.empty, .error "UnboundLocalError: result_path") ∧
    generate_removal_with_verification Q o 0 =
      (Trace.empty, .error "UnboundLocalError: result_path") ∧
    (∀ tr v, generate_with_verification P o N = (tr, .ok v) →
      v.passed = false →
      ∃ a, v.attempts.getLast? = some a ∧
        v.final_image_path = a.image_path) ∧
    (∀ tr v, generate_removal_with_verification Q o N = (tr, .ok v) →
      v.passed = false →
      ∃ a, v.attempts.getLast? = some a ∧
        v.final_image_path = a.image_path) := by
  refine ⟨insertLoop_zero_none P o 1 [], removalLoop_zero_none Q o 1 [],
    ?_, ?_⟩
  · intro tr v h _hpassed
    obtain ⟨-, -, -, hlast, hne, -⟩ := insertLoop_ok_inv P o N 1 [] none tr v h
    have hsome : v.attempts.getLast?.isSome := by
      rw [List.getLast?_isSome]
      exact hne rfl
    obtain ⟨a, ha⟩ := Option.isSome_iff_exists.mp hsome
    exact ⟨a, ha, hlast a ha⟩
  · intro tr v h _hpassed
    obtain ⟨-, -, -, hlast, hne, -⟩ :=
      removalLoop_ok_inv Q o N 1 [] none tr v h
    have hsome : v.attempts.getLast?.isSome := by
      rw [List.getLast?_isSome]
      exact hne rfl
    obtain ⟨a, ha⟩ := Option.isSome_iff_exists.mp hsome
    exact ⟨a, ha, hlast a ha⟩

/-- Witness for C10: `max_attempts = 0` fails with the unbound-local error
on a concrete oracle. -/
theorem claim10_result_path_binding_witness :
    (1 : Nat) ≤ 2 ∧
    generate_with_verification PW (okOracle gW rW eFailW) 0 =
      (Trace.empty, .error "UnboundLocalError: result_path") :=
  ⟨by decide,
   (claim10_result_path_binding PW QW (okOracle gW rW eFailW) 2
     (by decide)).1⟩

end VP
